import Mathlib

/-
Verification development for the Thespian asynchronous-transport base layer
(thespian/system/transport/asyncTransportBase.py) and its timing helper
(thespian/system/timing.py).

The Python module is embedded shallowly as a sequential operational model:
the transport-base object's fields become the record `Thespian.ATB`, each
method becomes a Lean function on that record, and all externally observable
actions (completion callbacks `tx_done`, serializer invocations, physical
submissions to the lower-level Transport, interrupt requests, transmit-only
runs) are recorded in an event log carried inside the state.  Collaborator
behaviour that the module only consumes (the address manager's
`prepMessageSend` result, the serializer's output, the lower transport's
completions and work reports) is supplied as explicit parameters, so every
code path of the source is driven by concrete data.  A ghost field
`accepted` records the intents accepted by `scheduleTransmit`; it has no
influence on behaviour and is used only to state the bookkeeping invariants.

Machine time is modelled as a natural-number monotonic clock `now`; each
invocation of the lower transport's blocking run consumes at least one
clock tick, reflecting that the monotonic clock of timing.py strictly
advances across a blocking call.
-/

set_option maxHeartbeats 1000000

namespace Thespian


/-- Terminal statuses delivered to a TransmitIntent's completion callback
(`SendStatus.Sent` / `SendStatus.Failed` in thespian.system.transport). -/
inductive SendStatus where
  | Sent
  | Failed
  deriving DecidableEq, Repr

/-- The fields of a TransmitIntent that the asyncTransportBase layer reads or
writes: its identity `tid` (object identity in Python), target address,
whether its message is the internal Thespian__UpdateWork wake message, the
serialized payload (`serMsg`, 0 standing for the falsy empty payload), the
expiry deadline of the intent on the model clock, and the `delay()` bound
handed to the drain step.  `deadline`/`delayv` are modelled from the spec's
Deadline value (TransmitIntent itself is not part of the sources under
verification): `none` means no timeout. -/
structure TransmitIntent where
  tid : Nat
  targetAddr : Nat
  isUpdateWork : Bool
  serMsg : Nat
  deadline : Option Nat
  delayv : Option Nat
  deriving DecidableEq, Repr

/-- Observable actions of the module, recorded in order of occurrence.
`txdone t st` is an invocation of intent `t`'s completion callback with
status `st`; `serialized t` is a call of the producer-supplied serializer on
intent `t`; `transportSubmit t p pr se` is a physical submission of intent
`t` to the lower transport (`_scheduleTransmitActual`) recording the value
of `_aTB_numPendingTransmits` just before its increment and of the
`_aTB_processing` / `_aTB_sending` flags at the moment of the call;
`interruptWait` is a call of `self.interrupt_wait()`; `transportRun w` is a
blocking `self.run(TransmitOnly, _)` call that reported `w` units of work
processed. -/
inductive Event where
  | txdone (tid : Nat) (status : SendStatus)
  | serialized (tid : Nat)
  | transportSubmit (tid : Nat) (pendingAtCall : Int)
      (processingAtCall : Bool) (sendingAtCall : Bool)
  | interruptWait
  | transportRun (workDone : Nat)
  deriving DecidableEq, Repr

/-- State of one asyncTransportBase instance.  The first six fields embed
`_aTB_numPendingTransmits`, `_aTB_processing`, `_aTB_sending`,
`_aTB_queuedPendingTransmits`, `_aTB_rx_pause_enabled` and
`_aTB_interrupted`.  `now` is the model clock, `inflight` the identities of
intents currently submitted to the lower transport whose completion callback
chain (armed by `addCallback`) has not fired yet, `log` the event log and
`accepted` the ghost list of intents accepted by `scheduleTransmit`. -/
structure ATB where
  numPendingTransmits : Int
  processing : Bool
  sending : Bool
  queued : List TransmitIntent
  rx_pause_enabled : Bool
  interrupted : Bool
  now : Nat
  inflight : List Nat
  log : List Event
  accepted : List Nat
  deriving DecidableEq, Repr

/-- Default of THESPIAN_MAX_PENDING_TRANSMITS. -/
def MAX_PENDING_TRANSMITS : Int := 20

/-- Default of THESPIAN_MAX_QUEUED_TRANSMITS. -/
def MAX_QUEUED_TRANSMITS : Nat := 950

/-- Default of THESPIAN_QUEUED_TRANSMIT_UNBLOCK_THRESHOLD. -/
def QUEUE_TRANSMIT_UNBLOCK_THRESHOLD : Nat := 780

/-- DROP_TRANSMITS_LEVEL defaults to MAX_QUEUED_TRANSMITS + 100. -/
def DROP_TRANSMITS_LEVEL : Nat := MAX_QUEUED_TRANSMITS + 100

/-- Embeds `_canSendNow`. -/
def canSendNow (s : ATB) : Bool :=
  decide (s.numPendingTransmits < MAX_PENDING_TRANSMITS)

/-- Expiry test of an intent's deadline on the model clock (ExpirationTimer
semantics of timing.py: expired iff the current time has reached the
time-to-quit; a `none` deadline never expires). -/
def TransmitIntent.expiredAt (i : TransmitIntent) (now : Nat) : Bool :=
  match i.deadline with
  | none => false
  | some d => decide (d ≤ now)

/-- Modelled from the spec: `thespian.system.utilis.partition` is not among
the sources under src; per spec section 4.5a the queue is partitioned into
the entries matching the predicate and the remaining entries, each side
keeping its original relative order. -/
def partitionBy (p : TransmitIntent → Bool) (l : List TransmitIntent) :
    List TransmitIntent × List TransmitIntent :=
  (l.filter p, l.filter (fun x => !(p x)))

/-- Completion events fired for a batch of expired intents. -/
def failEvents (l : List TransmitIntent) : List Event :=
  l.map (fun i => Event.txdone i.tid SendStatus.Failed)

/-- Embeds `_complete_expired_intents`: partition the queue by expiry, keep
the valid part, fire `tx_done(SendStatus.Failed)` on every expired intent,
and return the live count together with whether anything was removed. -/
def complete_expired_intents (s : ATB) : (Nat × Bool) × ATB :=
  let pr := partitionBy (fun i => i.expiredAt s.now) s.queued
  ((pr.2.length, !pr.1.isEmpty),
   { s with queued := pr.2, log := s.log ++ failEvents pr.1 })

/-- Embeds the sweep-until-stable loop at the top of `_runQueued`
(`v, e = ...; while e: v, e = ...`); the fuel argument dominates the queue
length, which strictly decreases on every repeated sweep. -/
def sweepLoop : Nat → ATB → Nat × ATB
  | 0, s => (s.queued.length, s)
  | Nat.succ f, s =>
    if (complete_expired_intents s).1.2 then sweepLoop f (complete_expired_intents s).2
    else ((complete_expired_intents s).1.1, (complete_expired_intents s).2)

/-- Embeds `_qtx`: under the lock, append the intent iff the queue is below
DROP_TRANSMITS_LEVEL; the length test and the append are a single atomic
operation of the model, mirroring the single `with self._aTB_lock` block. -/
def qtx (i : TransmitIntent) (s : ATB) : Bool × ATB :=
  if s.queued.length < DROP_TRANSMITS_LEVEL then
    (true, { s with queued := s.queued ++ [i] })
  else (false, s)

/-- Embeds `_queue_tx`: on `_qtx` rejection the intent completes immediately
as Failed (overload drop). -/
def queue_tx (i : TransmitIntent) (s : ATB) : Bool × ATB :=
  if (qtx i s).1 then (true, (qtx i s).2)
  else (false, { (qtx i s).2 with
                 log := (qtx i s).2.log ++ [Event.txdone i.tid SendStatus.Failed] })

/-- Embeds `_submitTransmit`: increment `_aTB_numPendingTransmits`, arm the
completion callback (the intent becomes in-flight), and call
`_scheduleTransmitActual`, recording the pre-increment counter and the flag
values at the moment of the call. -/
def submitTransmit (i : TransmitIntent) (s : ATB) : ATB :=
  { s with
      numPendingTransmits := s.numPendingTransmits + 1,
      log := s.log ++ [Event.transportSubmit i.tid s.numPendingTransmits s.processing s.sending],
      inflight := s.inflight ++ [i.tid] }

/-- The locked body of `_runQueued` (everything after the expiry-sweep
preamble): when the caller lacks the exclusive flag and `_aTB_processing` is
held elsewhere, the inner block is
skipped, `nextTransmit` stays None, the `try` returns False and its
`finally` clears both `_aTB_sending` and `_aTB_processing`.  Otherwise an
active `_aTB_sending` or an empty queue returns False from inside the lock
(before the `try`, leaving the flags alone); else both flags are taken, the
FIFO head is popped, submitted, and the `finally` clears both flags after
the submission call returns.  The `while True` in the source runs at most
one iteration: every path through the `try` statement returns. -/
def runQueuedBody (excl : Bool) (s0 : ATB) : Bool × ATB :=
  if excl || !s0.processing then
    if s0.sending then (false, s0)
    else
      match s0.queued with
      | [] => (false, s0)
      | i :: rest =>
        (true, { submitTransmit i
                   { s0 with processing := true, sending := true, queued := rest } with
                 sending := false, processing := false })
  else (false, { s0 with sending := false, processing := false })

/-- `_runQueued` itself: the sweep-until-stable preamble followed by the
locked body. -/
def runQueued (excl : Bool) (s : ATB) : Bool × ATB :=
  runQueuedBody excl (sweepLoop (s.queued.length + 1) s).2

/-- Embeds the `while self._canSendNow(): if not self._runQueued(...)` drive
loops.  With `doInterrupt := true` (the loop at the end of
`_schedulePreparedIntent`) a failed drive attempt from a non-main thread
with no interrupt outstanding flags `_aTB_interrupted` and calls
`interrupt_wait()` before breaking; with `doInterrupt := false` (the loop in
`_async_txdone`) it just breaks.  The fuel dominates the queue length, which
strictly decreases on every successful drive.  `markInterrupt` is the
flag-and-signal step (`self._aTB_interrupted = True; self.interrupt_wait()`). -/
def markInterrupt (s : ATB) : ATB :=
  { s with interrupted := true, log := s.log ++ [Event.interruptWait] }

def driveLoop (excl doInterrupt isMain : Bool) : Nat → ATB → ATB
  | 0, s => s
  | Nat.succ f, s =>
    if canSendNow s then
      if (runQueued excl s).1 then driveLoop excl doInterrupt isMain f (runQueued excl s).2
      else
        if doInterrupt && !isMain && !(runQueued excl s).2.interrupted then
          markInterrupt (runQueued excl s).2
        else (runQueued excl s).2
    else s

/-- Embeds `_async_txdone`: decrement the pending counter, then drive queued
work while capacity remains. -/
def async_txdone (s : ATB) : ATB :=
  driveLoop false false true (s.queued.length + 1)
    { s with numPendingTransmits := s.numPendingTransmits - 1 }

/-- A completion report from the lower transport for a submitted intent: the
intent's callback chain fires once (`tx_done` with the transport's status,
then `_async_txdone`).  The membership test embeds the transport contract
that only currently in-flight intents complete, each exactly once. -/
def run_complete (tid : Nat) (ok : Bool) (s : ATB) : ATB :=
  if tid ∈ s.inflight then
    async_txdone { s with
      inflight := s.inflight.erase tid,
      log := s.log ++ [Event.txdone tid (if ok then SendStatus.Sent else SendStatus.Failed)] }
  else s

/-- One blocking `self.run(TransmitOnly, _)` call of the drain loop: it
reports `w` units of work, advances the monotonic clock by one tick, and
fires the completions the lower transport produced during the call. -/
def runRound (w : Nat) (cs : List (Nat × Bool)) (s : ATB) : ATB :=
  cs.foldl (fun a c => run_complete c.1 c.2 a)
    { s with log := s.log ++ [Event.transportRun w], now := s.now + 1 }

/-- Why the transmit-only drain loop stopped (ghost observation; the source
returns nothing). -/
inductive DrainExit where
  | notEntered
  | drained
  | deadlineHit
  | noWork
  deriving DecidableEq, Repr

/-- Expiry of the drain deadline on the model clock. -/
def dexpired (dl : Option Nat) (now : Nat) : Bool :=
  match dl with
  | none => false
  | some d => decide (d ≤ now)

/-- The drain deadline: `ExpirationTimer(max_delay if max_delay else None)`;
note Python truthiness makes a zero delay behave like None (no timeout). -/
def mkDrainDeadline (max_delay : Option Nat) (now : Nat) : Option Nat :=
  match max_delay with
  | some d => if d = 0 then none else some (now + d)
  | none => none

/-- Embeds the `while v > QUEUE_TRANSMIT_UNBLOCK_THRESHOLD` loop of
`_drain_tx_queue_if_needed`: stop when drained to the threshold, when the
deadline has expired, or when the transport's run reports zero work; else
re-sweep and continue.  `rounds` lists the outcomes of successive transport
runs; an exhausted list stands for a transport with nothing left to do
(reporting zero).  The ExpirationTimer context manager of the source, absent
from the sources under src, is modelled from the spec as yielding the timer
itself. -/
def drainLoop (dl : Option Nat) :
    List (Nat × List (Nat × Bool)) → Nat → ATB → DrainExit × Nat × ATB
  | rounds, v, s =>
    if v ≤ QUEUE_TRANSMIT_UNBLOCK_THRESHOLD then (DrainExit.drained, v, s)
    else if dexpired dl s.now then (DrainExit.deadlineHit, v, s)
    else
      match rounds with
      | [] => (DrainExit.noWork, v, runRound 0 [] s)
      | (w, cs) :: rest =>
        if w = 0 then (DrainExit.noWork, v, runRound w cs s)
        else
          drainLoop dl rest (complete_expired_intents (runRound w cs s)).1.1
            (complete_expired_intents (runRound w cs s)).2

/-- Embeds `_drain_tx_queue_if_needed`: sweep, and enter the transmit-only
loop only when the live depth has reached MAX_QUEUED_TRANSMITS and rx-pause
flow control is enabled. -/
def drain_tx_queue_if_needed (max_delay : Option Nat)
    (rounds : List (Nat × List (Nat × Bool))) (s : ATB) : DrainExit × Nat × ATB :=
  if decide (MAX_QUEUED_TRANSMITS ≤ (complete_expired_intents s).1.1) &&
      (complete_expired_intents s).2.rx_pause_enabled then
    drainLoop (mkDrainDeadline max_delay (complete_expired_intents s).2.now) rounds
      (complete_expired_intents s).1.1 (complete_expired_intents s).2
  else (DrainExit.notEntered, (complete_expired_intents s).1.1, (complete_expired_intents s).2)

/-- Embeds `_exclusively_processing`. -/
def exclusively_processing (s : ATB) : Bool × ATB :=
  if s.processing then (false, s) else (true, { s with processing := true })

/-- Embeds `_not_processing`. -/
def not_processing (s : ATB) : ATB := { s with processing := false }

/-- The short-circuit `has_exclusive_flag or self._exclusively_processing()`
guard of the drain block. -/
def drainGate (excl : Bool) (s : ATB) : Bool × ATB :=
  if excl then (true, s) else exclusively_processing s

/-- The `_aTB_sending` test-and-set that elects the drainer. -/
def drainTake (g : Bool × ATB) : Bool × ATB :=
  if !g.2.sending then (true, { g.2 with sending := true }) else (false, g.2)

/-- Embeds the `if not self._canSendNow()` block of
`_schedulePreparedIntent`: when capacity is exhausted, at most one context
becomes the drainer (exclusive flag or a successful test-and-set of
`_aTB_processing`, then a test-and-set of `_aTB_sending`), runs the drain
step, and finally clears `_aTB_sending`; every context leaves
`_aTB_processing` cleared (`_not_processing` runs even when the exclusive
flag meant the mutex was never taken here). -/
def drainBlock (excl : Bool) (rounds : List (Nat × List (Nat × Bool)))
    (delayv : Option Nat) (s : ATB) : ATB :=
  if canSendNow s then s
  else if (drainGate excl s).1 then
    (if (drainTake (drainGate excl s)).1 then
      { (drain_tx_queue_if_needed delayv rounds
           (not_processing (drainTake (drainGate excl s)).2)).2.2 with
        sending := false }
    else not_processing (drainTake (drainGate excl s)).2)
  else (drainGate excl s).2

/-- Embeds `_schedulePreparedIntent`: an empty serialized payload is
implicit success; an UpdateWork wake message completes as Sent without ever
reaching the Transport and clears the interrupt flag; any other intent is
queued (subject to the overload drop, which ends the call); then the drain
step runs if capacity is exhausted, and queued work is driven while capacity
remains, interrupting the main thread at most once if driving fails from
another thread.  `driveAfter` is the common tail: the drain block followed
by the drive loop. -/
def driveAfter (excl isMain : Bool) (rounds : List (Nat × List (Nat × Bool)))
    (delayv : Option Nat) (s : ATB) : ATB :=
  driveLoop excl true isMain ((drainBlock excl rounds delayv s).queued.length + 1)
    (drainBlock excl rounds delayv s)

def schedulePreparedIntent (excl isMain : Bool)
    (rounds : List (Nat × List (Nat × Bool))) (i : TransmitIntent) (s : ATB) : ATB :=
  if i.serMsg = 0 then
    { s with log := s.log ++ [Event.txdone i.tid SendStatus.Sent] }
  else if i.isUpdateWork then
    driveAfter excl isMain rounds i.delayv
      { s with log := s.log ++ [Event.txdone i.tid SendStatus.Sent], interrupted := false }
  else if (queue_tx i s).1 then
    driveAfter excl isMain rounds i.delayv (queue_tx i s).2
  else (queue_tx i s).2

/-- Outcome of the address manager's `prepMessageSend` for one submit call:
no address manager supplied, a DeadTarget message, a falsy target address
(raising CannotPickleAddress), or a successful resolution carrying the
possibly rewritten target. -/
inductive PrepOutcome where
  | noMgr
  | dead
  | noAddr
  | ok (newTarget : Nat)
  deriving DecidableEq, Repr

/-- Embeds `scheduleTransmit`.  The Boolean result is true when the call
raises (CannotPickleAddress for a falsy target address, or a serializer
failure, modelled by `serOk = false`), in which case nothing happened.  A
DeadTarget resolution fakes an immediate Sent completion and returns without
serializing, queueing or touching the Transport.  Otherwise the serializer
runs (producing `serVal`; 0 is the falsy empty payload) and the prepared
intent is scheduled.  The ghost `accepted` list records every intent the
call accepted. -/
def scheduleTransmit (prep : PrepOutcome) (serOk : Bool) (serVal : Nat)
    (excl isMain : Bool) (rounds : List (Nat × List (Nat × Bool)))
    (i : TransmitIntent) (s : ATB) : Bool × ATB :=
  match prep with
  | PrepOutcome.dead =>
    (false, { s with log := s.log ++ [Event.txdone i.tid SendStatus.Sent],
                     accepted := s.accepted ++ [i.tid] })
  | PrepOutcome.noAddr => (true, s)
  | PrepOutcome.noMgr =>
    if serOk then
      (false, schedulePreparedIntent excl isMain rounds { i with serMsg := serVal }
        { s with log := s.log ++ [Event.serialized i.tid],
                 accepted := s.accepted ++ [i.tid] })
    else (true, s)
  | PrepOutcome.ok tgt =>
    if serOk then
      (false, schedulePreparedIntent excl isMain rounds
        { i with targetAddr := tgt, serMsg := serVal }
        { s with log := s.log ++ [Event.serialized i.tid],
                 accepted := s.accepted ++ [i.tid] })
    else (true, s)

/-- The per-intent rewrite of `deadAddress`: intents addressed to the dead
child have their target re-resolved (to the dead-letter routing); identity
and queue position are unchanged. -/
def deadRewrite (a b : Nat) (i : TransmitIntent) : TransmitIntent :=
  if i.targetAddr = a then { i with targetAddr := b } else i

/-- One interaction with the transport-base instance: a producer submit
(with the environment's resolution, serialization, thread and transport
choices), an asynchronous completion report from the lower transport, a
clock tick, a dead-address rewrite of the pending queue (`deadAddress`), or
toggling rx-pause flow control (`enableRXPauseFlowControl`). -/
inductive Op where
  | submit (i : TransmitIntent) (prep : PrepOutcome) (serOk : Bool) (serVal : Nat)
      (excl isMain : Bool) (rounds : List (Nat × List (Nat × Bool)))
  | complete (tid : Nat) (ok : Bool)
  | tick
  | deadAddr (addr newTarget : Nat)
  | enableRX (b : Bool)

/-- Effect of one operation. -/
def step (s : ATB) (op : Op) : ATB :=
  match op with
  | Op.submit i prep serOk serVal excl isMain rounds =>
    (scheduleTransmit prep serOk serVal excl isMain rounds i s).2
  | Op.complete tid ok => run_complete tid ok s
  | Op.tick => { s with now := s.now + 1 }
  | Op.deadAddr a t => { s with queued := s.queued.map (deadRewrite a t) }
  | Op.enableRX b => { s with rx_pause_enabled := b }

/-- A whole interaction history. -/
def runOps (s : ATB) (ops : List Op) : ATB := ops.foldl step s

/-- Environment wellformedness of one operation: a submit must carry a fresh
intent (Python object identity: a TransmitIntent is a new object per
transmission request, so its identity never equals that of a previously
accepted intent). -/
def opOK (s : ATB) : Op → Bool
  | Op.submit i _ _ _ _ _ _ => !(s.accepted.contains i.tid)
  | _ => true

/-- Environment wellformedness of a history. -/
def opsOK : ATB → List Op → Bool
  | _, [] => true
  | s, op :: rest => opOK s op && opsOK (step s op) rest

/-- The freshly constructed transport-base state (`__init__`). -/
def init : ATB :=
  ⟨0, false, false, [], true, false, 0, [], [], []⟩

/-- Recognizes a completion callback invocation for intent `t`. -/
def txFor (t : Nat) : Event → Bool
  | Event.txdone t' _ => t' == t
  | _ => false

/-- Recognizes a physical submission of intent `t` to the lower transport. -/
def subFor (t : Nat) : Event → Bool
  | Event.transportSubmit t' _ _ _ => t' == t
  | _ => false

/-- A submission performed without both `_aTB_processing` and `_aTB_sending`
held at the moment of the Transport call. -/
def flaggedSub : Event → Bool
  | Event.transportSubmit _ _ pr se => !(pr && se)
  | _ => false

/-- A submission performed although `_aTB_numPendingTransmits` had already
reached MAX_PENDING_TRANSMITS. -/
def overSub : Event → Bool
  | Event.transportSubmit _ p _ _ => decide (MAX_PENDING_TRANSMITS ≤ p)
  | _ => false

/-- Recognizes an `interrupt_wait()` call. -/
def isIntEv : Event → Bool
  | Event.interruptWait => true
  | _ => false

/-- Recognizes a blocking transmit-only run of the lower transport. -/
def isRunEv : Event → Bool
  | Event.transportRun _ => true
  | _ => false

/-- Queue membership test by intent identity. -/
def tidIs (t : Nat) (i : TransmitIntent) : Bool := i.tid == t

/-- Bookkeeping total for one intent identity: completion callbacks fired
plus occurrences in the pending queue plus occurrences in flight.  Each
accepted intent keeps this total at exactly one until its completion fires,
after which the single unit sits in the log forever. -/
def ledger (s : ATB) (t : Nat) : Nat :=
  s.log.countP (txFor t) + s.queued.countP (tidIs t) + s.inflight.count t

/-- Facts preserved by every internal queue-driving action: the per-intent
bookkeeping total, the ghost accepted list, the queue length bound, the
pending-counter/in-flight correspondence, absence of submissions for an
intent that is neither in the queue nor already submitted, and the fact that
every logged submission happened with both mutual-exclusion flags held. -/
structure Pres (s s' : ATB) : Prop where
  led : ∀ t, ledger s' t = ledger s t
  acc : s'.accepted = s.accepted
  ql : s'.queued.length ≤ s.queued.length
  pe : s.numPendingTransmits = (s.inflight.length : Int) →
       s'.numPendingTransmits = (s'.inflight.length : Int)
  nosub : ∀ t, s.log.countP (subFor t) = 0 → s.queued.countP (tidIs t) = 0 →
    s'.log.countP (subFor t) = 0 ∧ s'.queued.countP (tidIs t) = 0
  flg : s.log.countP flaggedSub = 0 → s'.log.countP flaggedSub = 0
  pref : ∃ d, s'.log = s.log ++ d

/-- Capacity boundedness: starting within the MAX_PENDING_TRANSMITS cap and
with no over-capacity submission on record, the cap still holds and no
over-capacity submission was performed. -/
def BndP (s s' : ATB) : Prop :=
  s.numPendingTransmits ≤ MAX_PENDING_TRANSMITS → s.log.countP overSub = 0 →
  s'.numPendingTransmits ≤ MAX_PENDING_TRANSMITS ∧ s'.log.countP overSub = 0

/-- The global state invariant of the transport base: every accepted intent
has exactly one unit of bookkeeping (a fired completion, a queue slot or an
in-flight slot) and every unknown identity has none; the pending counter
equals the number of in-flight intents and respects MAX_PENDING_TRANSMITS;
the queue respects DROP_TRANSMITS_LEVEL; no submission ever happened at or
above capacity, and none without both mutual-exclusion flags held. -/
structure Inv (s : ATB) : Prop where
  led1 : ∀ t, t ∈ s.accepted → ledger s t = 1
  led0 : ∀ t, t ∉ s.accepted → ledger s t = 0
  pe : s.numPendingTransmits = (s.inflight.length : Int)
  pl : s.numPendingTransmits ≤ MAX_PENDING_TRANSMITS
  ql : s.queued.length ≤ DROP_TRANSMITS_LEVEL
  ov : s.log.countP overSub = 0
  fl : s.log.countP flaggedSub = 0

/-- Interrupt bookkeeping (`_aTB_interrupted` and the count of
`interrupt_wait()` calls) is untouched by every code path except the
interrupting drive loop of `_schedulePreparedIntent`. -/
def IPres (s s' : ATB) : Prop :=
  s'.interrupted = s.interrupted ∧ s'.log.countP isIntEv = s.log.countP isIntEv

/-- Embeds `ExpirationTimer` of timing.py: the `_time_to_quit` value over
rational time (`none` for a never-expiring timer created with duration
None). -/
structure ExpirationTimer where
  time_to_quit : Option ℚ
  deriving DecidableEq

/-- The constructor: `_time_to_quit = None if duration is None else
currentTime() + duration`. -/
def ExpirationTimer.make (duration : Option ℚ) (now : ℚ) : ExpirationTimer :=
  ⟨duration.map (fun d => now + d)⟩

/-- `expired()`: the current time has reached the time-to-quit. -/
def ExpirationTimer.expiredQ (t : ExpirationTimer) (now : ℚ) : Bool :=
  match t.time_to_quit with
  | none => false
  | some q => decide (q ≤ now)

/-- `__lt__`: a None self is never less; a None other makes a non-None self
less; otherwise compare the time-to-quit values. -/
def ExpirationTimer.lt (a b : ExpirationTimer) : Bool :=
  match a.time_to_quit, b.time_to_quit with
  | none, _ => false
  | some _, none => true
  | some x, some y => decide (x < y)

/-- `__gt__`: False when both are None, otherwise the negation of
`__lt__`. -/
def ExpirationTimer.gt (a b : ExpirationTimer) : Bool :=
  match a.time_to_quit, b.time_to_quit with
  | none, none => false
  | _, _ => !(ExpirationTimer.lt a b)

/-- `__eq__`: equal time-to-quit values are equal; a None on one side only
is unequal; both expired compare equal; otherwise equal within one
microsecond. -/
def ExpirationTimer.eq (now : ℚ) (a b : ExpirationTimer) : Bool :=
  if a.time_to_quit = b.time_to_quit then true
  else
    match a.time_to_quit, b.time_to_quit with
    | some x, some y =>
      if a.expiredQ now && b.expiredQ now then true
      else decide (abs (x - y) < 1 / 1000000)
    | _, _ => false

/-- Recognizes a serializer invocation for intent `t`. -/
def serFor (t : Nat) : Event → Bool
  | Event.serialized t' => t' == t
  | _ => false

/-- A plain intent used in concrete runs. -/
def sampleIntent : TransmitIntent := ⟨0, 3, false, 7, none, none⟩

/-- A state in which another context holds the processing mutex while one
live intent is queued. -/
def heldState : ATB := { init with processing := true, queued := [sampleIntent] }

/-- An idle state with one live queued intent. -/
def readyState : ATB := { init with queued := [sampleIntent] }

/-- A state whose queue is exactly at the drop level. -/
def fullState : ATB :=
  { init with queued := List.replicate DROP_TRANSMITS_LEVEL sampleIntent }

/-- A state whose queue has reached the drain threshold. -/
def drainState : ATB :=
  { init with queued := List.replicate MAX_QUEUED_TRANSMITS sampleIntent }

/-- One concrete interaction history: a normal submit that goes straight to
the Transport, its completion, and a dead-target submit. -/
def C1ops : List Op :=
  [Op.submit sampleIntent PrepOutcome.noMgr true 7 false true [],
   Op.complete 0 true,
   Op.submit ⟨1, 3, false, 7, none, none⟩ PrepOutcome.dead true 7 false true []]

/-- A wake (UpdateWork) intent with a nonempty serialized payload. -/
def wakeIntent : TransmitIntent := ⟨5, 3, true, 7, none, none⟩

theorem countP_failEvents_zero (p : Event → Bool)
    (h : ∀ a b, p (Event.txdone a b) = false) (l : List TransmitIntent) :
    (failEvents l).countP p = 0 := by
  induction l with
  | nil => rfl
  | cons a l ih =>
    show (Event.txdone a.tid SendStatus.Failed :: failEvents l).countP p = 0
    simp [List.countP_cons, h, ih]

theorem countP_txFor_failEvents (t : Nat) (l : List TransmitIntent) :
    (failEvents l).countP (txFor t) = l.countP (tidIs t) := by
  induction l with
  | nil => rfl
  | cons a l ih =>
    show (Event.txdone a.tid SendStatus.Failed :: failEvents l).countP (txFor t) =
      (a :: l).countP (tidIs t)
    simp [List.countP_cons, txFor, tidIs, ih]

theorem countP_filter_split {α : Type} (p q : α → Bool) (l : List α) :
    (l.filter q).countP p + (l.filter (fun x => !(q x))).countP p = l.countP p := by
  induction l with
  | nil => rfl
  | cons a l ih =>
    by_cases h : q a <;>
      simp [List.filter_cons, h, List.countP_cons] <;> omega

theorem pres_refl (s : ATB) : Pres s s :=
  ⟨fun _ => rfl, rfl, Nat.le.refl, fun h => h, fun _ h1 h2 => ⟨h1, h2⟩, fun h => h,
   ⟨[], (List.append_nil _).symm⟩⟩

theorem pres_trans {s1 s2 s3 : ATB} (a : Pres s1 s2) (b : Pres s2 s3) : Pres s1 s3 := by
  refine ⟨fun t => (b.led t).trans (a.led t), b.acc.trans a.acc, b.ql.trans a.ql,
    fun h => b.pe (a.pe h), fun t h1 h2 => ?_, fun h => b.flg (a.flg h), ?_⟩
  · obtain ⟨h3, h4⟩ := a.nosub t h1 h2
    exact b.nosub t h3 h4
  · obtain ⟨d1, hd1⟩ := a.pref
    obtain ⟨d2, hd2⟩ := b.pref
    exact ⟨d1 ++ d2, by rw [hd2, hd1, List.append_assoc]⟩

theorem sweep_queued (s : ATB) :
    (complete_expired_intents s).2.queued =
      s.queued.filter (fun i => !(i.expiredAt s.now)) := rfl

theorem sweep_log (s : ATB) :
    (complete_expired_intents s).2.log =
      s.log ++ failEvents (s.queued.filter (fun i => i.expiredAt s.now)) := rfl

theorem sweep_v (s : ATB) :
    (complete_expired_intents s).1.1 =
      (s.queued.filter (fun i => !(i.expiredAt s.now))).length := rfl

theorem sweep_flag (s : ATB) :
    (complete_expired_intents s).1.2 =
      !(s.queued.filter (fun i => i.expiredAt s.now)).isEmpty := rfl

theorem sweep_inflight (s : ATB) :
    (complete_expired_intents s).2.inflight = s.inflight := rfl

theorem sweep_pending (s : ATB) :
    (complete_expired_intents s).2.numPendingTransmits = s.numPendingTransmits := rfl

theorem sweep_processing (s : ATB) :
    (complete_expired_intents s).2.processing = s.processing := rfl

theorem sweep_sending (s : ATB) :
    (complete_expired_intents s).2.sending = s.sending := rfl

theorem sweep_interrupted (s : ATB) :
    (complete_expired_intents s).2.interrupted = s.interrupted := rfl

theorem sweep_now (s : ATB) :
    (complete_expired_intents s).2.now = s.now := rfl

theorem sweep_rx (s : ATB) :
    (complete_expired_intents s).2.rx_pause_enabled = s.rx_pause_enabled := rfl

theorem sweep_accepted (s : ATB) :
    (complete_expired_intents s).2.accepted = s.accepted := rfl

theorem subFor_txdone (t : Nat) :
    ∀ a b, subFor t (Event.txdone a b) = false := fun _ _ => rfl

theorem sweep_pres (s : ATB) : Pres s (complete_expired_intents s).2 := by
  constructor
  · intro t
    simp only [ledger, sweep_queued, sweep_log, sweep_inflight,
      List.countP_append, countP_txFor_failEvents]
    have h := countP_filter_split (tidIs t) (fun i => i.expiredAt s.now) s.queued
    omega
  · exact sweep_accepted s
  · rw [sweep_queued]
    exact List.length_filter_le _ _
  · intro h2
    rw [sweep_pending, sweep_inflight]
    exact h2
  · intro t h1 h2
    have h := countP_filter_split (tidIs t) (fun i => i.expiredAt s.now) s.queued
    constructor
    · simp only [sweep_log, List.countP_append, h1,
        countP_failEvents_zero (subFor t) (subFor_txdone t)]
    · rw [sweep_queued]
      omega
  · intro h2
    simp only [sweep_log, List.countP_append, h2,
      countP_failEvents_zero flaggedSub (fun _ _ => rfl)]
  · exact ⟨failEvents (s.queued.filter (fun i => i.expiredAt s.now)), sweep_log s⟩

theorem sweepLoop_pres : ∀ (f : Nat) (s : ATB), Pres s (sweepLoop f s).2
  | 0, s => pres_refl s
  | Nat.succ f, s => by
    unfold sweepLoop
    split
    · exact pres_trans (sweep_pres s) (sweepLoop_pres f _)
    · exact sweep_pres s

theorem sweepLoop_fields : ∀ (f : Nat) (s : ATB),
    (sweepLoop f s).2.numPendingTransmits = s.numPendingTransmits ∧
    (sweepLoop f s).2.inflight = s.inflight ∧
    (sweepLoop f s).2.processing = s.processing ∧
    (sweepLoop f s).2.sending = s.sending ∧
    (sweepLoop f s).2.interrupted = s.interrupted ∧
    (sweepLoop f s).2.now = s.now ∧
    (sweepLoop f s).2.rx_pause_enabled = s.rx_pause_enabled
  | 0, _ => ⟨rfl, rfl, rfl, rfl, rfl, rfl, rfl⟩
  | Nat.succ f, s => by
    unfold sweepLoop
    split
    · have h := sweepLoop_fields f (complete_expired_intents s).2
      simpa [sweep_pending, sweep_inflight, sweep_processing, sweep_sending,
        sweep_interrupted, sweep_now, sweep_rx] using h
    · exact ⟨rfl, rfl, rfl, rfl, rfl, rfl, rfl⟩

/-- A state change that only extends the log by one neutral event (neither a
completion nor a submission) and possibly moves flags or the clock preserves
all bookkeeping facts. -/
theorem pres_of_neutral (s s' : ATB) (e : Event)
    (hq : s'.queued = s.queued) (hin : s'.inflight = s.inflight)
    (hacc : s'.accepted = s.accepted)
    (hp : s'.numPendingTransmits = s.numPendingTransmits)
    (hlog : s'.log = s.log ++ [e])
    (h1 : ∀ t, txFor t e = false) (h2 : ∀ t, subFor t e = false)
    (h3 : flaggedSub e = false) : Pres s s' := by
  constructor
  · intro t
    simp [ledger, hq, hin, hlog, List.countP_append, List.countP_cons, h1]
  · exact hacc
  · exact hq ▸ Nat.le.refl
  · intro h
    rw [hp, hin]
    exact h
  · intro t ha hb
    constructor
    · simp [hlog, List.countP_append, List.countP_cons, h2, ha]
    · rw [hq]
      exact hb
  · intro h
    simp [hlog, List.countP_append, List.countP_cons, h3, h]
  · exact ⟨[e], hlog⟩

/-- Flag-only changes preserve all bookkeeping facts. -/
theorem pres_flags (s s' : ATB)
    (hq : s'.queued = s.queued) (hin : s'.inflight = s.inflight)
    (hacc : s'.accepted = s.accepted)
    (hp : s'.numPendingTransmits = s.numPendingTransmits)
    (hlog : s'.log = s.log) : Pres s s' := by
  constructor
  · intro t
    simp [ledger, hq, hin, hlog]
  · exact hacc
  · exact hq ▸ Nat.le.refl
  · intro h
    rw [hp, hin]
    exact h
  · intro t ha hb
    rw [hlog, hq]
    exact ⟨ha, hb⟩
  · intro h
    rw [hlog]
    exact h
  · exact ⟨[], by rw [hlog, List.append_nil]⟩

/-- Effect of the pop-and-submit arm of `_runQueued` on the bookkeeping. -/
theorem pop_pres (s0 : ATB) (i : TransmitIntent) (rest : List TransmitIntent)
    (hq : s0.queued = i :: rest) :
    Pres s0 { s0 with
        processing := false, sending := false, queued := rest,
        numPendingTransmits := s0.numPendingTransmits + 1,
        log := s0.log ++ [Event.transportSubmit i.tid s0.numPendingTransmits true true],
        inflight := s0.inflight ++ [i.tid] } := by
  constructor
  · intro t
    simp only [ledger, hq, List.countP_append, List.countP_cons, List.countP_nil,
      List.count_append, List.count_cons, List.count_nil]
    by_cases h : i.tid = t <;>
      (simp [txFor, subFor, tidIs, h]; try omega)
  · rfl
  · rw [hq]
    exact Nat.le_succ _
  · intro h
    simp only [List.length_append, List.length_cons, List.length_nil]
    push_cast
    omega
  · intro t ha hb
    rw [hq, List.countP_cons] at hb
    have hti : tidIs t i = false := by
      cases hcase : tidIs t i
      · rfl
      · rw [hcase] at hb
        simp at hb
    have hb2 : List.countP (tidIs t) rest = 0 := by
      rw [hti] at hb
      simpa using hb
    refine ⟨?_, hb2⟩
    have hbe : (i.tid == t) = false := hti
    simp only [List.countP_append, ha, List.countP_cons, List.countP_nil]
    simp [subFor, hbe]
  · intro h
    simp only [List.countP_append, h, List.countP_cons, List.countP_nil]
    simp [flaggedSub]
  · exact ⟨[Event.transportSubmit i.tid s0.numPendingTransmits true true], rfl⟩

theorem runQueuedBody_pres (excl : Bool) (s0 : ATB) :
    Pres s0 (runQueuedBody excl s0).2 := by
  unfold runQueuedBody
  split
  · split
    · exact pres_refl s0
    · split
      · exact pres_refl s0
      · rename_i i rest hq
        exact pop_pres s0 i rest hq
  · exact pres_flags _ _ rfl rfl rfl rfl rfl

theorem runQueued_pres (excl : Bool) (s : ATB) : Pres s (runQueued excl s).2 :=
  pres_trans (sweepLoop_pres (s.queued.length + 1) s) (runQueuedBody_pres excl _)

theorem driveLoop_pres (excl doInt isMain : Bool) :
    ∀ (f : Nat) (s : ATB), Pres s (driveLoop excl doInt isMain f s)
  | 0, s => pres_refl s
  | Nat.succ f, s => by
    unfold driveLoop
    split
    · split
      · exact pres_trans (runQueued_pres excl s) (driveLoop_pres excl doInt isMain f _)
      · split
        · exact pres_trans (runQueued_pres excl s)
            (pres_of_neutral (runQueued excl s).2 (markInterrupt (runQueued excl s).2)
              Event.interruptWait rfl rfl rfl rfl rfl
              (fun _ => rfl) (fun _ => rfl) rfl)
        · exact runQueued_pres excl s
    · exact pres_refl s

theorem async_txdone_pres_pre (s : ATB) :
    Pres { s with numPendingTransmits := s.numPendingTransmits - 1 } (async_txdone s) :=
  driveLoop_pres false false true _ _

theorem run_complete_pres (tid : Nat) (ok : Bool) (s : ATB) :
    Pres s (run_complete tid ok s) := by
  unfold run_complete
  split
  · rename_i hmem
    refine pres_trans ?_ (async_txdone_pres_pre _)
    have hcnt : 0 < s.inflight.count tid := List.count_pos_iff.mpr hmem
    have hlen : 0 < s.inflight.length := List.length_pos_of_mem hmem
    constructor
    · intro t
      by_cases h : tid = t
      · subst h
        simp only [ledger, List.countP_append, List.countP_cons, List.countP_nil,
          List.count_erase_self]
        simp [txFor]
        omega
      · simp only [ledger, List.countP_append, List.countP_cons, List.countP_nil,
          List.count_erase_of_ne (fun he => h he.symm)]
        simp [txFor, h]
    · rfl
    · exact Nat.le.refl
    · intro h
      rw [List.length_erase_of_mem hmem]
      push_cast
      omega
    · intro t ha hb
      refine ⟨?_, hb⟩
      simp [List.countP_append, List.countP_cons, subFor, ha]
    · intro h
      simp [List.countP_append, List.countP_cons, flaggedSub, h]
    · exact ⟨[Event.txdone tid (if ok then SendStatus.Sent else SendStatus.Failed)], rfl⟩
  · exact pres_refl s

theorem foldl_complete_pres (cs : List (Nat × Bool)) :
    ∀ s : ATB, Pres s (cs.foldl (fun a c => run_complete c.1 c.2 a) s) := by
  induction cs with
  | nil => exact fun s => pres_refl s
  | cons c cs ih =>
    intro s
    exact pres_trans (run_complete_pres c.1 c.2 s) (ih _)

theorem runRound_pres (w : Nat) (cs : List (Nat × Bool)) (s : ATB) :
    Pres s (runRound w cs s) := by
  unfold runRound
  exact pres_trans
    (pres_of_neutral s { s with log := s.log ++ [Event.transportRun w], now := s.now + 1 }
      (Event.transportRun w) rfl rfl rfl rfl rfl
      (fun _ => rfl) (fun _ => rfl) rfl)
    (foldl_complete_pres cs _)

theorem drainLoop_pres (dl : Option Nat) :
    ∀ (rounds : List (Nat × List (Nat × Bool))) (v : Nat) (s : ATB),
      Pres s (drainLoop dl rounds v s).2.2
  | rounds, v, s => by
    unfold drainLoop
    split
    · exact pres_refl s
    · split
      · exact pres_refl s
      · split
        · exact runRound_pres 0 [] s
        · rename_i w cs rest
          split
          · exact runRound_pres w cs s
          · exact pres_trans (runRound_pres w cs s)
              (pres_trans (sweep_pres _) (drainLoop_pres dl rest _ _))

theorem drain_tx_queue_if_needed_pres (max_delay : Option Nat)
    (rounds : List (Nat × List (Nat × Bool))) (s : ATB) :
    Pres s (drain_tx_queue_if_needed max_delay rounds s).2.2 := by
  unfold drain_tx_queue_if_needed
  split
  · exact pres_trans (sweep_pres s) (drainLoop_pres _ rounds _ _)
  · exact sweep_pres s

theorem drainGate_pres (excl : Bool) (s : ATB) : Pres s (drainGate excl s).2 := by
  unfold drainGate
  split
  · exact pres_refl s
  · unfold exclusively_processing
    split
    · exact pres_refl s
    · exact pres_flags _ _ rfl rfl rfl rfl rfl

theorem drainTake_pres (g : Bool × ATB) : Pres g.2 (drainTake g).2 := by
  unfold drainTake
  split
  · exact pres_flags _ _ rfl rfl rfl rfl rfl
  · exact pres_refl g.2

theorem not_processing_pres (s : ATB) : Pres s (not_processing s) :=
  pres_flags _ _ rfl rfl rfl rfl rfl

theorem drainBlock_pres (excl : Bool) (rounds : List (Nat × List (Nat × Bool)))
    (delayv : Option Nat) (s : ATB) :
    Pres s (drainBlock excl rounds delayv s) := by
  unfold drainBlock
  split
  · exact pres_refl s
  · split
    · split
      · refine pres_trans (drainGate_pres excl s) ?_
        refine pres_trans (drainTake_pres (drainGate excl s)) ?_
        refine pres_trans (not_processing_pres _) ?_
        refine pres_trans (drain_tx_queue_if_needed_pres delayv rounds _) ?_
        exact pres_flags _ _ rfl rfl rfl rfl rfl
      · exact pres_trans (drainGate_pres excl s)
          (pres_trans (drainTake_pres (drainGate excl s)) (not_processing_pres _))
    · exact drainGate_pres excl s

theorem sweep_countP (p : Event → Bool) (hp : ∀ a b, p (Event.txdone a b) = false)
    (s : ATB) : (complete_expired_intents s).2.log.countP p = s.log.countP p := by
  rw [sweep_log, List.countP_append, countP_failEvents_zero p hp]
  omega

theorem sweepLoop_countP (p : Event → Bool) (hp : ∀ a b, p (Event.txdone a b) = false) :
    ∀ (f : Nat) (s : ATB), (sweepLoop f s).2.log.countP p = s.log.countP p
  | 0, _ => rfl
  | Nat.succ f, s => by
    unfold sweepLoop
    split
    · rw [sweepLoop_countP p hp f _, sweep_countP p hp]
    · exact sweep_countP p hp s

theorem bndP_refl (s : ATB) : BndP s s := fun h1 h2 => ⟨h1, h2⟩

theorem bndP_trans {s1 s2 s3 : ATB} (a : BndP s1 s2) (b : BndP s2 s3) : BndP s1 s3 :=
  fun h1 h2 => b (a h1 h2).1 (a h1 h2).2

theorem sweepLoop_bnd (f : Nat) (s : ATB) : BndP s (sweepLoop f s).2 := by
  intro h1 h2
  rw [sweepLoop_countP overSub (fun _ _ => rfl) f s, (sweepLoop_fields f s).1]
  exact ⟨h1, h2⟩

theorem runQueued_pending_le (excl : Bool) (s : ATB) :
    (runQueued excl s).2.numPendingTransmits ≤ s.numPendingTransmits + 1 := by
  unfold runQueued runQueuedBody
  have hps := (sweepLoop_fields (s.queued.length + 1) s).1
  split
  · split
    · rw [hps]
      omega
    · split
      · rw [hps]
        omega
      · show (sweepLoop (s.queued.length + 1) s).2.numPendingTransmits + 1 ≤ _
        rw [hps]
  · show (sweepLoop (s.queued.length + 1) s).2.numPendingTransmits ≤ _
    rw [hps]
    omega

theorem runQueued_bnd (excl : Bool) (s : ATB) (hc : canSendNow s = true) :
    BndP s (runQueued excl s).2 := by
  intro h1 h2
  have hlt : s.numPendingTransmits < MAX_PENDING_TRANSMITS := by
    simpa [canSendNow] using hc
  have hps := (sweepLoop_fields (s.queued.length + 1) s).1
  have hov := sweepLoop_countP overSub (fun _ _ => rfl) (s.queued.length + 1) s
  unfold runQueued runQueuedBody
  split
  · split
    · rw [hps, hov]
      exact ⟨by omega, h2⟩
    · split
      · rw [hps, hov]
        exact ⟨by omega, h2⟩
      · rename_i i rest hq
        constructor
        · show (sweepLoop (s.queued.length + 1) s).2.numPendingTransmits + 1 ≤ _
          rw [hps]
          omega
        · show List.countP overSub ((sweepLoop (s.queued.length + 1) s).2.log ++
            [Event.transportSubmit i.tid
              (sweepLoop (s.queued.length + 1) s).2.numPendingTransmits true true]) = 0
          rw [List.countP_append, hov, h2]
          have he : overSub (Event.transportSubmit i.tid
              (sweepLoop (s.queued.length + 1) s).2.numPendingTransmits true true) =
              decide (MAX_PENDING_TRANSMITS ≤
                (sweepLoop (s.queued.length + 1) s).2.numPendingTransmits) := rfl
          have hnle : ¬ (MAX_PENDING_TRANSMITS ≤
              (sweepLoop (s.queued.length + 1) s).2.numPendingTransmits) := by
            rw [hps]
            omega
          simp [List.countP_cons, he, hnle]
  · rw [hps, hov]
    exact ⟨by omega, h2⟩

theorem driveLoop_bnd (excl doInt isMain : Bool) :
    ∀ (f : Nat) (s : ATB), BndP s (driveLoop excl doInt isMain f s)
  | 0, s => bndP_refl s
  | Nat.succ f, s => by
    unfold driveLoop
    split
    · rename_i hc
      split
      · exact bndP_trans (runQueued_bnd excl s hc) (driveLoop_bnd excl doInt isMain f _)
      · split
        · intro h1 h2
          obtain ⟨h3, h4⟩ := runQueued_bnd excl s hc h1 h2
          refine ⟨h3, ?_⟩
          show List.countP overSub ((runQueued excl s).2.log ++ [Event.interruptWait]) = 0
          rw [List.countP_append, h4]
          rfl
        · exact runQueued_bnd excl s hc
    · exact bndP_refl s

theorem async_txdone_bnd (s : ATB) :
    BndP s (async_txdone s) := by
  intro h1 h2
  refine driveLoop_bnd false false true _ _ ?_ h2
  show s.numPendingTransmits - 1 ≤ MAX_PENDING_TRANSMITS
  omega

theorem run_complete_bnd (tid : Nat) (ok : Bool) (s : ATB) :
    BndP s (run_complete tid ok s) := by
  unfold run_complete
  split
  · intro h1 h2
    refine async_txdone_bnd _ h1 ?_
    show List.countP overSub (s.log ++
      [Event.txdone tid (if ok then SendStatus.Sent else SendStatus.Failed)]) = 0
    rw [List.countP_append, h2]
    have he : overSub (Event.txdone tid
        (if ok then SendStatus.Sent else SendStatus.Failed)) = false := rfl
    simp [List.countP_cons, he]
  · exact bndP_refl s

theorem foldl_complete_bnd (cs : List (Nat × Bool)) :
    ∀ s : ATB, BndP s (cs.foldl (fun a c => run_complete c.1 c.2 a) s) := by
  induction cs with
  | nil => exact fun s => bndP_refl s
  | cons c cs ih =>
    intro s
    exact bndP_trans (run_complete_bnd c.1 c.2 s) (ih _)

theorem runRound_bnd (w : Nat) (cs : List (Nat × Bool)) (s : ATB) :
    BndP s (runRound w cs s) := by
  unfold runRound
  refine bndP_trans ?_ (foldl_complete_bnd cs _)
  intro h1 h2
  refine ⟨h1, ?_⟩
  show List.countP overSub (s.log ++ [Event.transportRun w]) = 0
  rw [List.countP_append, h2]
  rfl

theorem sweep_bnd (s : ATB) : BndP s (complete_expired_intents s).2 := by
  intro h1 h2
  rw [sweep_countP overSub (fun _ _ => rfl) s, sweep_pending]
  exact ⟨h1, h2⟩

theorem drainLoop_bnd (dl : Option Nat) :
    ∀ (rounds : List (Nat × List (Nat × Bool))) (v : Nat) (s : ATB),
      BndP s (drainLoop dl rounds v s).2.2
  | rounds, v, s => by
    unfold drainLoop
    split
    · exact bndP_refl s
    · split
      · exact bndP_refl s
      · split
        · exact runRound_bnd 0 [] s
        · rename_i w cs rest
          split
          · exact runRound_bnd w cs s
          · exact bndP_trans (runRound_bnd w cs s)
              (bndP_trans (sweep_bnd _) (drainLoop_bnd dl rest _ _))

theorem drain_tx_queue_if_needed_bnd (max_delay : Option Nat)
    (rounds : List (Nat × List (Nat × Bool))) (s : ATB) :
    BndP s (drain_tx_queue_if_needed max_delay rounds s).2.2 := by
  unfold drain_tx_queue_if_needed
  split
  · exact bndP_trans (sweep_bnd s) (drainLoop_bnd _ rounds _ _)
  · exact sweep_bnd s

theorem drainBlock_bnd (excl : Bool) (rounds : List (Nat × List (Nat × Bool)))
    (delayv : Option Nat) (s : ATB) :
    BndP s (drainBlock excl rounds delayv s) := by
  have hgate : ∀ u : ATB, BndP u (drainGate excl u).2 := by
    intro u
    unfold drainGate exclusively_processing
    split
    · exact bndP_refl u
    · split
      · exact bndP_refl u
      · exact fun h1 h2 => ⟨h1, h2⟩
  have htake : ∀ g : Bool × ATB, BndP g.2 (drainTake g).2 := by
    intro g
    unfold drainTake
    split
    · exact fun h1 h2 => ⟨h1, h2⟩
    · exact bndP_refl g.2
  unfold drainBlock
  split
  · exact bndP_refl s
  · split
    · split
      · have ha := bndP_trans (hgate s) (htake (drainGate excl s))
        have hb : BndP (drainTake (drainGate excl s)).2
            (not_processing (drainTake (drainGate excl s)).2) := fun a b => ⟨a, b⟩
        have hc := drain_tx_queue_if_needed_bnd delayv rounds
          (not_processing (drainTake (drainGate excl s)).2)
        have hd : BndP (drain_tx_queue_if_needed delayv rounds
            (not_processing (drainTake (drainGate excl s)).2)).2.2
            { (drain_tx_queue_if_needed delayv rounds
                (not_processing (drainTake (drainGate excl s)).2)).2.2 with
              sending := false } := fun a b => ⟨a, b⟩
        exact bndP_trans ha (bndP_trans hb (bndP_trans hc hd))
      · exact bndP_trans (hgate s)
          (bndP_trans (htake (drainGate excl s)) (fun h1 h2 => ⟨h1, h2⟩))
    · exact hgate s

theorem queue_tx_true (i : TransmitIntent) (s : ATB)
    (h : s.queued.length < DROP_TRANSMITS_LEVEL) :
    queue_tx i s = (true, { s with queued := s.queued ++ [i] }) := by
  unfold queue_tx qtx
  simp [h]

theorem queue_tx_false (i : TransmitIntent) (s : ATB)
    (h : ¬ s.queued.length < DROP_TRANSMITS_LEVEL) :
    queue_tx i s =
      (false, { s with log := s.log ++ [Event.txdone i.tid SendStatus.Failed] }) := by
  unfold queue_tx qtx
  simp [h]

theorem countP_txFor_push (s : ATB) (tid0 : Nat) (st : SendStatus) (t : Nat) :
    List.countP (txFor t) (s.log ++ [Event.txdone tid0 st]) =
      List.countP (txFor t) s.log + (if tid0 = t then 1 else 0) := by
  rw [List.countP_append]
  by_cases h : tid0 = t <;> simp [List.countP_cons, txFor, h]

theorem ledger_push_queue (s : ATB) (i : TransmitIntent) (t : Nat) :
    ledger { s with queued := s.queued ++ [i] } t =
      ledger s t + (if i.tid = t then 1 else 0) := by
  simp only [ledger, List.countP_append, List.countP_cons, List.countP_nil]
  by_cases h : i.tid = t <;> (simp [tidIs, h]; try omega)

theorem driveAfter_pres (excl isMain : Bool) (rounds : List (Nat × List (Nat × Bool)))
    (delayv : Option Nat) (s : ATB) :
    Pres s (driveAfter excl isMain rounds delayv s) := by
  unfold driveAfter
  exact pres_trans (drainBlock_pres excl rounds delayv s)
    (driveLoop_pres excl true isMain _ _)

theorem driveAfter_bnd (excl isMain : Bool) (rounds : List (Nat × List (Nat × Bool)))
    (delayv : Option Nat) (s : ATB) :
    BndP s (driveAfter excl isMain rounds delayv s) := by
  unfold driveAfter
  exact bndP_trans (drainBlock_bnd excl rounds delayv s)
    (driveLoop_bnd excl true isMain _ _)

theorem push_txdone_bundle (s : ATB) (tid0 : Nat) (st : SendStatus) (b : Bool) :
    (∀ t, ledger { s with log := s.log ++ [Event.txdone tid0 st], interrupted := b } t =
       ledger s t + (if tid0 = t then 1 else 0)) ∧
    BndP s { s with log := s.log ++ [Event.txdone tid0 st], interrupted := b } ∧
    (s.log.countP flaggedSub = 0 →
      ({ s with log := s.log ++ [Event.txdone tid0 st],
                interrupted := b } : ATB).log.countP flaggedSub = 0) := by
  refine ⟨?_, ?_, ?_⟩
  · intro t
    show List.countP (txFor t) (s.log ++ [Event.txdone tid0 st]) +
        List.countP (tidIs t) s.queued + List.count t s.inflight =
      List.countP (txFor t) s.log + List.countP (tidIs t) s.queued +
        List.count t s.inflight + (if tid0 = t then 1 else 0)
    rw [countP_txFor_push]
    omega
  · intro h1 h2
    refine ⟨h1, ?_⟩
    show List.countP overSub (s.log ++ [Event.txdone tid0 st]) = 0
    rw [List.countP_append, h2]
    rfl
  · intro h
    show List.countP flaggedSub (s.log ++ [Event.txdone tid0 st]) = 0
    rw [List.countP_append, h]
    rfl

/-- Net effect of `_schedulePreparedIntent` on the bookkeeping: exactly one
unit is added for the scheduled intent (a completion event or a queue slot),
everything else is preserved, and all bounds survive. -/
theorem schedPrep_effect (excl isMain : Bool) (rounds : List (Nat × List (Nat × Bool)))
    (i : TransmitIntent) (s : ATB) :
    (∀ t, ledger (schedulePreparedIntent excl isMain rounds i s) t =
       ledger s t + (if i.tid = t then 1 else 0)) ∧
    (schedulePreparedIntent excl isMain rounds i s).accepted = s.accepted ∧
    (s.queued.length ≤ DROP_TRANSMITS_LEVEL →
       (schedulePreparedIntent excl isMain rounds i s).queued.length ≤
         DROP_TRANSMITS_LEVEL) ∧
    (s.numPendingTransmits = (s.inflight.length : Int) →
       (schedulePreparedIntent excl isMain rounds i s).numPendingTransmits =
         ((schedulePreparedIntent excl isMain rounds i s).inflight.length : Int)) ∧
    BndP s (schedulePreparedIntent excl isMain rounds i s) ∧
    (s.log.countP flaggedSub = 0 →
       (schedulePreparedIntent excl isMain rounds i s).log.countP flaggedSub = 0) := by
  unfold schedulePreparedIntent
  split
  · obtain ⟨hl, hb, hf⟩ := push_txdone_bundle s i.tid SendStatus.Sent s.interrupted
    exact ⟨hl, rfl, fun h => h, fun h => h, hb, hf⟩
  · split
    · obtain ⟨hl, hb, hf⟩ := push_txdone_bundle s i.tid SendStatus.Sent false
      have hp := driveAfter_pres excl isMain rounds i.delayv
        { s with log := s.log ++ [Event.txdone i.tid SendStatus.Sent], interrupted := false }
      have hbb := driveAfter_bnd excl isMain rounds i.delayv
        { s with log := s.log ++ [Event.txdone i.tid SendStatus.Sent], interrupted := false }
      refine ⟨?_, hp.acc, ?_, ?_, bndP_trans hb hbb, ?_⟩
      · intro t
        rw [hp.led t]
        exact hl t
      · intro h
        exact le_trans hp.ql h
      · intro h
        exact hp.pe h
      · intro h
        exact hp.flg (hf h)
    · split
      · rename_i hqt
        have hlen : s.queued.length < DROP_TRANSMITS_LEVEL := by
          by_contra hno
          rw [queue_tx_false i s hno] at hqt
          simp at hqt
        simp only [queue_tx_true i s hlen]
        have hp := driveAfter_pres excl isMain rounds i.delayv
          { s with queued := s.queued ++ [i] }
        have hbb := driveAfter_bnd excl isMain rounds i.delayv
          { s with queued := s.queued ++ [i] }
        refine ⟨?_, hp.acc, ?_, ?_, ?_, ?_⟩
        · intro t
          rw [hp.led t, ledger_push_queue]
        · intro h
          refine le_trans hp.ql ?_
          have hql : ({ s with queued := s.queued ++ [i] } : ATB).queued.length =
              s.queued.length + 1 := by
            simp
          omega
        · intro h
          exact hp.pe h
        · exact bndP_trans (fun h1 h2 => ⟨h1, h2⟩) hbb
        · intro h
          exact hp.flg h
      · rename_i hqt
        have hlen : ¬ s.queued.length < DROP_TRANSMITS_LEVEL := by
          by_contra hyes
          rw [queue_tx_true i s hyes] at hqt
          simp at hqt
        rw [show (queue_tx i s).2 =
          { s with log := s.log ++ [Event.txdone i.tid SendStatus.Failed] } from by
            rw [queue_tx_false i s hlen]]
        obtain ⟨hl, hb, hf⟩ := push_txdone_bundle s i.tid SendStatus.Failed s.interrupted
        exact ⟨hl, rfl, fun h => h, fun h => h, hb, hf⟩

theorem Inv.of_pres {s s' : ATB} (h : Inv s) (hp : Pres s s') (hb : BndP s s') :
    Inv s' := by
  constructor
  · intro t ht
    rw [hp.acc] at ht
    rw [hp.led t]
    exact h.led1 t ht
  · intro t ht
    rw [hp.acc] at ht
    rw [hp.led t]
    exact h.led0 t ht
  · exact hp.pe h.pe
  · exact (hb h.pl h.ov).1
  · exact le_trans hp.ql h.ql
  · exact (hb h.pl h.ov).2
  · exact hp.flg h.fl

/-- Acceptance of one fresh intent with exactly one new unit of bookkeeping
preserves the invariant. -/
theorem inv_of_accept {s s' : ATB} (h : Inv s) (tid0 : Nat)
    (hfresh : tid0 ∉ s.accepted)
    (hacc : s'.accepted = s.accepted ++ [tid0])
    (hled : ∀ t, ledger s' t = ledger s t + (if tid0 = t then 1 else 0))
    (hpe : s'.numPendingTransmits = (s'.inflight.length : Int))
    (hpl : s'.numPendingTransmits ≤ MAX_PENDING_TRANSMITS)
    (hql : s'.queued.length ≤ DROP_TRANSMITS_LEVEL)
    (hov : s'.log.countP overSub = 0)
    (hfl : s'.log.countP flaggedSub = 0) : Inv s' := by
  refine ⟨?_, ?_, hpe, hpl, hql, hov, hfl⟩
  · intro t ht
    rw [hacc, List.mem_append, List.mem_singleton] at ht
    rcases ht with ht | ht
    · have hne : tid0 ≠ t := fun he => hfresh (he ▸ ht)
      have h1 := h.led1 t ht
      rw [hled t, if_neg hne]
      omega
    · subst ht
      have h0 := h.led0 t hfresh
      rw [hled t, if_pos rfl]
      omega
  · intro t ht
    rw [hacc] at ht
    simp only [List.mem_append, List.mem_singleton, not_or] at ht
    obtain ⟨ht1, ht2⟩ := ht
    have h0 := h.led0 t ht1
    rw [hled t, if_neg (fun he => ht2 he.symm)]
    omega

theorem countP_txFor_serialized (s : ATB) (tid0 t : Nat) :
    List.countP (txFor t) (s.log ++ [Event.serialized tid0]) =
      List.countP (txFor t) s.log := by
  rw [List.countP_append]
  simp [List.countP_cons, txFor]

theorem countP_tid_deadRewrite (t a b : Nat) (l : List TransmitIntent) :
    (l.map (deadRewrite a b)).countP (tidIs t) = l.countP (tidIs t) := by
  induction l with
  | nil => rfl
  | cons x l ih =>
    by_cases hx : x.targetAddr = a <;>
      simp [List.countP_cons, deadRewrite, hx, tidIs, ih]

theorem inv_init : Inv init := by
  refine ⟨?_, ?_, rfl, by decide, by decide, rfl, rfl⟩
  · intro t ht
    simp [init] at ht
  · intro t _
    rfl

theorem inv_step (s : ATB) (op : Op) (h : Inv s) (hok : opOK s op = true) :
    Inv (step s op) := by
  cases op with
  | submit i prep serOk serVal excl isMain rounds =>
    have hfresh : i.tid ∉ s.accepted := by
      simp only [opOK, Bool.not_eq_true'] at hok
      intro hmem
      rw [List.contains_eq_any_beq] at hok
      simp [List.any_eq_false] at hok
      exact (hok i.tid hmem) rfl
    cases prep with
    | dead =>
      refine inv_of_accept h i.tid hfresh rfl ?_ h.pe h.pl h.ql ?_ ?_
      · exact (push_txdone_bundle s i.tid SendStatus.Sent s.interrupted).1
      · show List.countP overSub (s.log ++ [Event.txdone i.tid SendStatus.Sent]) = 0
        rw [List.countP_append, h.ov]
        rfl
      · show List.countP flaggedSub (s.log ++ [Event.txdone i.tid SendStatus.Sent]) = 0
        rw [List.countP_append, h.fl]
        rfl
    | noAddr => exact h
    | noMgr =>
      by_cases hser : serOk
      · simp only [step, scheduleTransmit, if_pos hser]
        obtain ⟨E1, E2, E3, E4, E5, E6⟩ := schedPrep_effect excl isMain rounds
          { i with serMsg := serVal }
          { s with log := s.log ++ [Event.serialized i.tid],
                   accepted := s.accepted ++ [i.tid] }
        have hov1 : List.countP overSub (s.log ++ [Event.serialized i.tid]) = 0 := by
          rw [List.countP_append, h.ov]
          rfl
        have hfl1 : List.countP flaggedSub (s.log ++ [Event.serialized i.tid]) = 0 := by
          rw [List.countP_append, h.fl]
          rfl
        refine inv_of_accept h i.tid hfresh E2 ?_ (E4 h.pe) (E5 h.pl hov1).1 (E3 h.ql)
          (E5 h.pl hov1).2 (E6 hfl1)
        intro t
        rw [E1 t]
        have hls : ledger { s with log := s.log ++ [Event.serialized i.tid], accepted := s.accepted ++ [i.tid] } t = ledger s t := by
          show List.countP (txFor t) (s.log ++ [Event.serialized i.tid]) +
              List.countP (tidIs t) s.queued + List.count t s.inflight = _
          rw [countP_txFor_serialized]
          rfl
        rw [hls]
      · simp only [step, scheduleTransmit, if_neg hser]
        exact h
    | ok tgt =>
      by_cases hser : serOk
      · simp only [step, scheduleTransmit, if_pos hser]
        obtain ⟨E1, E2, E3, E4, E5, E6⟩ := schedPrep_effect excl isMain rounds
          { i with targetAddr := tgt, serMsg := serVal }
          { s with log := s.log ++ [Event.serialized i.tid],
                   accepted := s.accepted ++ [i.tid] }
        have hov1 : List.countP overSub (s.log ++ [Event.serialized i.tid]) = 0 := by
          rw [List.countP_append, h.ov]
          rfl
        have hfl1 : List.countP flaggedSub (s.log ++ [Event.serialized i.tid]) = 0 := by
          rw [List.countP_append, h.fl]
          rfl
        refine inv_of_accept h i.tid hfresh E2 ?_ (E4 h.pe) (E5 h.pl hov1).1 (E3 h.ql)
          (E5 h.pl hov1).2 (E6 hfl1)
        intro t
        rw [E1 t]
        have hls : ledger { s with log := s.log ++ [Event.serialized i.tid], accepted := s.accepted ++ [i.tid] } t = ledger s t := by
          show List.countP (txFor t) (s.log ++ [Event.serialized i.tid]) +
              List.countP (tidIs t) s.queued + List.count t s.inflight = _
          rw [countP_txFor_serialized]
          rfl
        rw [hls]
      · simp only [step, scheduleTransmit, if_neg hser]
        exact h
  | complete tid ok =>
    exact h.of_pres (run_complete_pres tid ok s) (run_complete_bnd tid ok s)
  | tick => exact ⟨h.led1, h.led0, h.pe, h.pl, h.ql, h.ov, h.fl⟩
  | deadAddr a b =>
    refine ⟨?_, ?_, h.pe, h.pl, ?_, h.ov, h.fl⟩
    · intro t ht
      show List.countP (txFor t) s.log +
        List.countP (tidIs t) (s.queued.map (deadRewrite a b)) + List.count t s.inflight = 1
      rw [countP_tid_deadRewrite]
      exact h.led1 t ht
    · intro t ht
      show List.countP (txFor t) s.log +
        List.countP (tidIs t) (s.queued.map (deadRewrite a b)) + List.count t s.inflight = 0
      rw [countP_tid_deadRewrite]
      exact h.led0 t ht
    · show (s.queued.map (deadRewrite a b)).length ≤ DROP_TRANSMITS_LEVEL
      rw [List.length_map]
      exact h.ql
  | enableRX b => exact ⟨h.led1, h.led0, h.pe, h.pl, h.ql, h.ov, h.fl⟩

theorem inv_runOps : ∀ (ops : List Op) (s : ATB), Inv s → opsOK s ops = true →
    Inv (runOps s ops)
  | [], _, h, _ => h
  | op :: ops, s, h, hok => by
    have hsplit : opOK s op = true ∧ opsOK (step s op) ops = true := by
      simpa [opsOK, Bool.and_eq_true] using hok
    exact inv_runOps ops (step s op) (inv_step s op h hsplit.1) hsplit.2

theorem Ipres_refl (s : ATB) : IPres s s := ⟨rfl, rfl⟩

theorem Ipres_trans {s1 s2 s3 : ATB} (a : IPres s1 s2) (b : IPres s2 s3) :
    IPres s1 s3 := ⟨b.1.trans a.1, b.2.trans a.2⟩

theorem ipres_sweep (s : ATB) : IPres s (complete_expired_intents s).2 :=
  ⟨sweep_interrupted s, sweep_countP isIntEv (fun _ _ => rfl) s⟩

theorem ipres_sweepLoop (f : Nat) (s : ATB) : IPres s (sweepLoop f s).2 :=
  ⟨(sweepLoop_fields f s).2.2.2.2.1, sweepLoop_countP isIntEv (fun _ _ => rfl) f s⟩

theorem ipres_runQueuedBody (excl : Bool) (s0 : ATB) :
    IPres s0 (runQueuedBody excl s0).2 := by
  unfold runQueuedBody
  split
  · split
    · exact Ipres_refl s0
    · split
      · exact Ipres_refl s0
      · rename_i i rest hq
        refine ⟨rfl, ?_⟩
        show List.countP isIntEv (s0.log ++
          [Event.transportSubmit i.tid s0.numPendingTransmits true true]) = _
        rw [List.countP_append]
        rfl
  · exact ⟨rfl, rfl⟩

theorem ipres_runQueued (excl : Bool) (s : ATB) : IPres s (runQueued excl s).2 :=
  Ipres_trans (ipres_sweepLoop (s.queued.length + 1) s) (ipres_runQueuedBody excl _)

theorem ipres_driveLoop (excl isMain : Bool) :
    ∀ (f : Nat) (s : ATB), IPres s (driveLoop excl false isMain f s)
  | 0, s => Ipres_refl s
  | Nat.succ f, s => by
    unfold driveLoop
    split
    · split
      · exact Ipres_trans (ipres_runQueued excl s) (ipres_driveLoop excl isMain f _)
      · split
        · rename_i hcond
          simp at hcond
        · exact ipres_runQueued excl s
    · exact Ipres_refl s

theorem ipres_async (s : ATB) : IPres s (async_txdone s) := by
  unfold async_txdone
  exact Ipres_trans
    (⟨rfl, rfl⟩ : IPres s { s with numPendingTransmits := s.numPendingTransmits - 1 })
    (ipres_driveLoop false true _ _)

theorem ipres_run_complete (tid : Nat) (ok : Bool) (s : ATB) :
    IPres s (run_complete tid ok s) := by
  unfold run_complete
  split
  · refine Ipres_trans ?_ (ipres_async _)
    refine ⟨rfl, ?_⟩
    show List.countP isIntEv (s.log ++
      [Event.txdone tid (if ok then SendStatus.Sent else SendStatus.Failed)]) = _
    rw [List.countP_append]
    have he : isIntEv (Event.txdone tid
        (if ok then SendStatus.Sent else SendStatus.Failed)) = false := rfl
    simp [List.countP_cons, he]
  · exact Ipres_refl s

theorem ipres_foldl (cs : List (Nat × Bool)) :
    ∀ s : ATB, IPres s (cs.foldl (fun a c => run_complete c.1 c.2 a) s) := by
  induction cs with
  | nil => exact fun s => Ipres_refl s
  | cons c cs ih =>
    intro s
    exact Ipres_trans (ipres_run_complete c.1 c.2 s) (ih _)

theorem ipres_runRound (w : Nat) (cs : List (Nat × Bool)) (s : ATB) :
    IPres s (runRound w cs s) := by
  unfold runRound
  refine Ipres_trans ?_ (ipres_foldl cs _)
  refine ⟨rfl, ?_⟩
  show List.countP isIntEv (s.log ++ [Event.transportRun w]) = _
  rw [List.countP_append]
  rfl

theorem ipres_drainLoop (dl : Option Nat) :
    ∀ (rounds : List (Nat × List (Nat × Bool))) (v : Nat) (s : ATB),
      IPres s (drainLoop dl rounds v s).2.2
  | rounds, v, s => by
    unfold drainLoop
    split
    · exact Ipres_refl s
    · split
      · exact Ipres_refl s
      · split
        · exact ipres_runRound 0 [] s
        · rename_i w cs rest
          split
          · exact ipres_runRound w cs s
          · exact Ipres_trans (ipres_runRound w cs s)
              (Ipres_trans (ipres_sweep _) (ipres_drainLoop dl rest _ _))

theorem ipres_drain_tx (max_delay : Option Nat)
    (rounds : List (Nat × List (Nat × Bool))) (s : ATB) :
    IPres s (drain_tx_queue_if_needed max_delay rounds s).2.2 := by
  unfold drain_tx_queue_if_needed
  split
  · exact Ipres_trans (ipres_sweep s) (ipres_drainLoop _ rounds _ _)
  · exact ipres_sweep s

theorem ipres_drainBlock (excl : Bool) (rounds : List (Nat × List (Nat × Bool)))
    (delayv : Option Nat) (s : ATB) :
    IPres s (drainBlock excl rounds delayv s) := by
  have hgate : ∀ u : ATB, IPres u (drainGate excl u).2 := by
    intro u
    unfold drainGate exclusively_processing
    split
    · exact Ipres_refl u
    · split
      · exact Ipres_refl u
      · exact ⟨rfl, rfl⟩
  have htake : ∀ g : Bool × ATB, IPres g.2 (drainTake g).2 := by
    intro g
    unfold drainTake
    split
    · exact ⟨rfl, rfl⟩
    · exact Ipres_refl g.2
  unfold drainBlock
  split
  · exact Ipres_refl s
  · split
    · split
      · refine Ipres_trans (hgate s) ?_
        refine Ipres_trans (htake (drainGate excl s)) ?_
        refine Ipres_trans (⟨rfl, rfl⟩ :
          IPres _ (not_processing (drainTake (drainGate excl s)).2)) ?_
        refine Ipres_trans (ipres_drain_tx delayv rounds _) ?_
        exact ⟨rfl, rfl⟩
      · exact Ipres_trans (hgate s)
          (Ipres_trans (htake (drainGate excl s)) ⟨rfl, rfl⟩)
    · exact hgate s

/-- The interrupting drive loop fires `interrupt_wait()` at most once, and
only from a non-main thread with no interruption already outstanding. -/
theorem driveLoop_int (excl isMain : Bool) :
    ∀ (f : Nat) (s : ATB),
      ((driveLoop excl true isMain f s).log.countP isIntEv = s.log.countP isIntEv ∧
       (driveLoop excl true isMain f s).interrupted = s.interrupted) ∨
      ((driveLoop excl true isMain f s).log.countP isIntEv = s.log.countP isIntEv + 1 ∧
       isMain = false ∧ s.interrupted = false ∧
       (driveLoop excl true isMain f s).interrupted = true)
  | 0, s => Or.inl ⟨rfl, rfl⟩
  | Nat.succ f, s => by
    unfold driveLoop
    split
    · split
      · obtain ⟨hi1, hi2⟩ := ipres_runQueued excl s
        rcases driveLoop_int excl isMain f (runQueued excl s).2 with
          ⟨ha, hb⟩ | ⟨ha, hb, hc, hd⟩
        · exact Or.inl ⟨by rw [ha, hi2], by rw [hb, hi1]⟩
        · refine Or.inr ⟨by rw [ha, hi2], hb, ?_, hd⟩
          rw [← hi1]
          exact hc
      · split
        · rename_i hcond
          obtain ⟨hi1, hi2⟩ := ipres_runQueued excl s
          simp only [Bool.and_eq_true, Bool.not_eq_true'] at hcond
          refine Or.inr ⟨?_, hcond.1.2, ?_, rfl⟩
          · show List.countP isIntEv ((runQueued excl s).2.log ++ [Event.interruptWait]) = _
            rw [List.countP_append, hi2]
            rfl
          · rw [← hi1]
            exact hcond.2
        · obtain ⟨hi1, hi2⟩ := ipres_runQueued excl s
          exact Or.inl ⟨hi2, hi1⟩
    · exact Or.inl ⟨rfl, rfl⟩

/-- Transmit-only run counting and clock facts for the completion path: a
completion report performs no transport run and keeps the clock. -/
theorem runstats_runQueued (excl : Bool) (s : ATB) :
    (runQueued excl s).2.log.countP isRunEv = s.log.countP isRunEv ∧
    (runQueued excl s).2.now = s.now := by
  have h1 := sweepLoop_countP isRunEv (fun _ _ => rfl) (s.queued.length + 1) s
  have h2 := (sweepLoop_fields (s.queued.length + 1) s).2.2.2.2.2.1
  unfold runQueued runQueuedBody
  split
  · split
    · exact ⟨h1, h2⟩
    · split
      · exact ⟨h1, h2⟩
      · rename_i i rest hq
        refine ⟨?_, h2⟩
        show List.countP isRunEv ((sweepLoop (s.queued.length + 1) s).2.log ++
          [Event.transportSubmit i.tid
            (sweepLoop (s.queued.length + 1) s).2.numPendingTransmits true true]) = _
        rw [List.countP_append, h1]
        rfl
  · exact ⟨h1, h2⟩

theorem runstats_driveLoop (excl doInt isMain : Bool) :
    ∀ (f : Nat) (s : ATB),
      (driveLoop excl doInt isMain f s).log.countP isRunEv = s.log.countP isRunEv ∧
      (driveLoop excl doInt isMain f s).now = s.now
  | 0, s => ⟨rfl, rfl⟩
  | Nat.succ f, s => by
    unfold driveLoop
    split
    · split
      · obtain ⟨ha, hb⟩ := runstats_runQueued excl s
        obtain ⟨hc, hd⟩ := runstats_driveLoop excl doInt isMain f (runQueued excl s).2
        exact ⟨hc.trans ha, hd.trans hb⟩
      · split
        · obtain ⟨ha, hb⟩ := runstats_runQueued excl s
          refine ⟨?_, hb⟩
          show List.countP isRunEv ((runQueued excl s).2.log ++ [Event.interruptWait]) = _
          rw [List.countP_append, ha]
          rfl
        · exact runstats_runQueued excl s
    · exact ⟨rfl, rfl⟩

theorem runstats_run_complete (tid : Nat) (ok : Bool) (s : ATB) :
    (run_complete tid ok s).log.countP isRunEv = s.log.countP isRunEv ∧
    (run_complete tid ok s).now = s.now := by
  unfold run_complete async_txdone
  split
  · obtain ⟨ha, hb⟩ := runstats_driveLoop false false true
      ((s.queued.length + 1))
      { { s with inflight := s.inflight.erase tid, log := s.log ++ [Event.txdone tid (if ok then SendStatus.Sent else SendStatus.Failed)] } with numPendingTransmits := s.numPendingTransmits - 1 }
    refine ⟨ha.trans ?_, hb⟩
    show List.countP isRunEv (s.log ++
      [Event.txdone tid (if ok then SendStatus.Sent else SendStatus.Failed)]) = _
    rw [List.countP_append]
    have he : isRunEv (Event.txdone tid
        (if ok then SendStatus.Sent else SendStatus.Failed)) = false := rfl
    simp [List.countP_cons, he]
  · exact ⟨rfl, rfl⟩

theorem runstats_foldl (cs : List (Nat × Bool)) :
    ∀ s : ATB,
      (cs.foldl (fun a c => run_complete c.1 c.2 a) s).log.countP isRunEv =
        s.log.countP isRunEv ∧
      (cs.foldl (fun a c => run_complete c.1 c.2 a) s).now = s.now := by
  induction cs with
  | nil => exact fun s => ⟨rfl, rfl⟩
  | cons c cs ih =>
    intro s
    obtain ⟨ha, hb⟩ := runstats_run_complete c.1 c.2 s
    obtain ⟨hc, hd⟩ := ih (run_complete c.1 c.2 s)
    exact ⟨hc.trans ha, hd.trans hb⟩

theorem runstats_runRound (w : Nat) (cs : List (Nat × Bool)) (s : ATB) :
    (runRound w cs s).log.countP isRunEv = s.log.countP isRunEv + 1 ∧
    (runRound w cs s).now = s.now + 1 := by
  unfold runRound
  obtain ⟨ha, hb⟩ := runstats_foldl cs
    { s with log := s.log ++ [Event.transportRun w], now := s.now + 1 }
  refine ⟨ha.trans ?_, hb⟩
  show List.countP isRunEv (s.log ++ [Event.transportRun w]) = _
  rw [List.countP_append]
  rfl

theorem drainLoop_ne_notEntered (dl : Option Nat) :
    ∀ (rounds : List (Nat × List (Nat × Bool))) (v : Nat) (s : ATB),
      (drainLoop dl rounds v s).1 ≠ DrainExit.notEntered
  | rounds, v, s => by
    unfold drainLoop
    split
    · simp
    · split
      · simp
      · split
        · simp
        · rename_i w cs rest
          split
          · simp
          · exact drainLoop_ne_notEntered dl rest _ _

theorem drainLoop_drained (dl : Option Nat) :
    ∀ (rounds : List (Nat × List (Nat × Bool))) (v : Nat) (s : ATB),
      (drainLoop dl rounds v s).1 = DrainExit.drained →
      (drainLoop dl rounds v s).2.1 ≤ QUEUE_TRANSMIT_UNBLOCK_THRESHOLD
  | rounds, v, s => by
    unfold drainLoop
    split
    · rename_i hv
      intro _
      exact hv
    · split
      · intro h
        simp at h
      · split
        · intro h
          simp at h
        · rename_i w cs rest
          split
          · intro h
            simp at h
          · exact drainLoop_drained dl rest _ _

theorem drainLoop_deadline (dl : Option Nat) :
    ∀ (rounds : List (Nat × List (Nat × Bool))) (v : Nat) (s : ATB),
      (drainLoop dl rounds v s).1 = DrainExit.deadlineHit →
      dexpired dl (drainLoop dl rounds v s).2.2.now = true
  | rounds, v, s => by
    unfold drainLoop
    split
    · intro h
      simp at h
    · split
      · rename_i hd
        intro _
        exact hd
      · split
        · intro h
          simp at h
        · rename_i w cs rest
          split
          · intro h
            simp at h
          · exact drainLoop_deadline dl rest _ _

theorem drainLoop_noWork (dl : Option Nat) :
    ∀ (rounds : List (Nat × List (Nat × Bool))) (v : Nat) (s : ATB),
      (∀ r ∈ rounds, r.1 = 0 → r.2 = []) →
      (drainLoop dl rounds v s).1 = DrainExit.noWork →
      (drainLoop dl rounds v s).2.2.log.getLast? = some (Event.transportRun 0)
  | rounds, v, s => by
    unfold drainLoop
    split
    · intro _ h
      simp at h
    · split
      · intro _ h
        simp at h
      · split
        · intro _ _
          show (runRound 0 [] s).log.getLast? = _
          unfold runRound
          show (s.log ++ [Event.transportRun 0]).getLast? = _
          rw [List.getLast?_concat]
        · rename_i w cs rest
          split
          · rename_i hw0
            intro hwf _
            have hcs : cs = [] := hwf (w, cs) (by simp) hw0
            subst hcs
            subst hw0
            show (runRound 0 [] s).log.getLast? = _
            unfold runRound
            show (s.log ++ [Event.transportRun 0]).getLast? = _
            rw [List.getLast?_concat]
          · intro hwf h
            refine drainLoop_noWork dl rest _ _ ?_ h
            intro r hr hz
            exact hwf r (by simp [hr]) hz

theorem drainLoop_runcount (dln : Nat) :
    ∀ (rounds : List (Nat × List (Nat × Bool))) (v : Nat) (s : ATB),
      (drainLoop (some dln) rounds v s).2.2.log.countP isRunEv ≤
        s.log.countP isRunEv + (dln - s.now)
  | rounds, v, s => by
    unfold drainLoop
    split
    · exact Nat.le_add_right _ _
    · split
      · exact Nat.le_add_right _ _
      · rename_i hnd
        have hlt : s.now < dln := by
          simp only [dexpired, Bool.not_eq_true, decide_eq_false_iff_not] at hnd
          omega
        split
        · rw [(runstats_runRound 0 [] s).1]
          omega
        · rename_i w cs rest
          split
          · rw [(runstats_runRound w cs s).1]
            omega
          · have h1 := (runstats_runRound w cs s).1
            have h2 := (runstats_runRound w cs s).2
            have h3 := sweep_countP isRunEv (fun _ _ => rfl) (runRound w cs s)
            have h4 := sweep_now (runRound w cs s)
            have ih := drainLoop_runcount dln rest
              (complete_expired_intents (runRound w cs s)).1.1
              (complete_expired_intents (runRound w cs s)).2
            rw [h3, h4, h1, h2] at ih
            omega

theorem drainLoop_allzero (dl : Option Nat) :
    ∀ (rounds : List (Nat × List (Nat × Bool))) (v : Nat) (s : ATB),
      (∀ r ∈ rounds, r.1 = 0) →
      (drainLoop dl rounds v s).2.2.log.countP isRunEv ≤ s.log.countP isRunEv + 1 := by
  intro rounds v s hz
  unfold drainLoop
  split
  · show List.countP isRunEv s.log ≤ s.log.countP isRunEv + 1
    omega
  · split
    · show List.countP isRunEv s.log ≤ s.log.countP isRunEv + 1
      omega
    · split
      · rw [(runstats_runRound 0 [] s).1]
      · rename_i w cs rest
        split
        · rw [(runstats_runRound w cs s).1]
        · rename_i hwne
          exact absurd (hz (w, cs) (by simp)) hwne

theorem sweep_id (s : ATB) (h : ∀ i ∈ s.queued, i.expiredAt s.now = false) :
    complete_expired_intents s = ((s.queued.length, false), s) := by
  obtain ⟨np, pr, sd, qu, rx, ir, nw, infl, lg, ac⟩ := s
  simp only at h
  have h1 : qu.filter (fun i => i.expiredAt nw) = [] := by
    rw [List.filter_eq_nil_iff]
    intro a ha
    simp [h a ha]
  have h2 : qu.filter (fun i => !(i.expiredAt nw)) = qu := by
    rw [List.filter_eq_self]
    intro a ha
    simp [h a ha]
  simp [complete_expired_intents, partitionBy, h1, h2, failEvents]

theorem sweepLoop_id (f : Nat) (s : ATB)
    (h : ∀ i ∈ s.queued, i.expiredAt s.now = false) :
    sweepLoop (f + 1) s = (s.queued.length, s) := by
  unfold sweepLoop
  rw [sweep_id s h]
  simp

/-- C1: every TransmitIntent accepted by scheduleTransmit keeps exactly one
unit of completion bookkeeping: its completion (`tx_done`) is never fired
twice on any interleaving of operations, each accepted intent holds exactly
one of fired-completion / queue-slot / in-flight-slot, and at quiescence
(empty queue, nothing in flight) every accepted intent's completion has
fired exactly once, whichever path resolved it (dead-target synthetic Sent,
empty-payload or wake-message Sent, overload-drop Failed, expiry-sweep
Failed, or Transport completion). -/
theorem C1_completion_exactly_once (ops : List Op) (hops : opsOK init ops = true) :
    (∀ t, t ∈ (runOps init ops).accepted → ledger (runOps init ops) t = 1) ∧
    (∀ t, (runOps init ops).log.countP (txFor t) ≤ 1) ∧
    ((runOps init ops).queued = [] → (runOps init ops).inflight = [] →
      ∀ t, t ∈ (runOps init ops).accepted →
        (runOps init ops).log.countP (txFor t) = 1) := by
  have h := inv_runOps ops init inv_init hops
  refine ⟨h.led1, ?_, ?_⟩
  · intro t
    by_cases hm : t ∈ (runOps init ops).accepted
    · have h1 := h.led1 t hm
      unfold ledger at h1
      omega
    · have h0 := h.led0 t hm
      unfold ledger at h0
      omega
  · intro hq hin t hm
    have h1 := h.led1 t hm
    unfold ledger at h1
    rw [hq, hin] at h1
    simp only [List.countP_nil, List.count_nil] at h1
    omega

theorem C1_completion_exactly_once_witness :
    opsOK init C1ops = true ∧
    ((∀ t, t ∈ (runOps init C1ops).accepted → ledger (runOps init C1ops) t = 1) ∧
     (∀ t, (runOps init C1ops).log.countP (txFor t) ≤ 1) ∧
     ((runOps init C1ops).queued = [] → (runOps init C1ops).inflight = [] →
       ∀ t, t ∈ (runOps init C1ops).accepted →
         (runOps init C1ops).log.countP (txFor t) = 1)) :=
  ⟨by decide, C1_completion_exactly_once C1ops (by decide)⟩

/-- C2: over every interaction history the pending queue never exceeds
DROP_TRANSMITS_LEVEL, and an enqueue attempted at (or beyond) that level
stores nothing — the queue is unchanged and the intent completes immediately
as Failed.  The length test and the append are a single atomic operation of
the model (`qtx`), mirroring the single lock-protected block of `_qtx`. -/
theorem C2_queue_bound (ops : List Op) (hops : opsOK init ops = true)
    (i : TransmitIntent) (s : ATB)
    (hfull : ¬ s.queued.length < DROP_TRANSMITS_LEVEL) :
    (runOps init ops).queued.length ≤ DROP_TRANSMITS_LEVEL ∧
    queue_tx i s =
      (false, { s with log := s.log ++ [Event.txdone i.tid SendStatus.Failed] }) ∧
    (queue_tx i s).2.queued = s.queued ∧ (queue_tx i s).1 = false := by
  have h := inv_runOps ops init inv_init hops
  refine ⟨h.ql, queue_tx_false i s hfull, ?_, ?_⟩
  · rw [queue_tx_false i s hfull]
  · rw [queue_tx_false i s hfull]

theorem C2_queue_bound_witness :
    opsOK init [] = true ∧
    (¬ fullState.queued.length < DROP_TRANSMITS_LEVEL) ∧
    ((runOps init []).queued.length ≤ DROP_TRANSMITS_LEVEL ∧
     queue_tx sampleIntent fullState =
       (false, { fullState with
                 log := fullState.log ++
                   [Event.txdone sampleIntent.tid SendStatus.Failed] }) ∧
     (queue_tx sampleIntent fullState).2.queued = fullState.queued ∧
     (queue_tx sampleIntent fullState).1 = false) :=
  ⟨rfl, by simp [fullState], C2_queue_bound [] rfl sampleIntent fullState (by simp [fullState])⟩

/-- C3: over every interaction history the in-flight submission counter
stays within 0 ≤ count ≤ MAX_PENDING_TRANSMITS; it always equals the number
of in-flight intents; every physical submission on record was made with the
counter strictly below MAX_PENDING_TRANSMITS; and whenever a completion
decrements the counter by one (an in-flight intent exists), the result is
still nonnegative. -/
theorem C3_pending_bound (ops : List Op) (hops : opsOK init ops = true) :
    0 ≤ (runOps init ops).numPendingTransmits ∧
    (runOps init ops).numPendingTransmits ≤ MAX_PENDING_TRANSMITS ∧
    (runOps init ops).numPendingTransmits = ((runOps init ops).inflight.length : Int) ∧
    (runOps init ops).log.countP overSub = 0 ∧
    (∀ tid, tid ∈ (runOps init ops).inflight →
      0 ≤ (runOps init ops).numPendingTransmits - 1) := by
  have h := inv_runOps ops init inv_init hops
  refine ⟨?_, h.pl, h.pe, h.ov, ?_⟩
  · rw [h.pe]
    exact Int.natCast_nonneg _
  · intro tid hm
    have hl := List.length_pos_of_mem hm
    rw [h.pe]
    omega

theorem C3_pending_bound_witness :
    opsOK init C1ops = true ∧
    (0 ≤ (runOps init C1ops).numPendingTransmits ∧
     (runOps init C1ops).numPendingTransmits ≤ MAX_PENDING_TRANSMITS ∧
     (runOps init C1ops).numPendingTransmits =
       ((runOps init C1ops).inflight.length : Int) ∧
     (runOps init C1ops).log.countP overSub = 0 ∧
     (∀ tid, tid ∈ (runOps init C1ops).inflight →
       0 ≤ (runOps init C1ops).numPendingTransmits - 1)) :=
  ⟨by decide, C3_pending_bound C1ops (by decide)⟩

/-- C6: a submit whose address resolution reports DeadTarget completes the
intent immediately as Sent and returns: the resulting state differs only by
the Sent completion event (and ghost acceptance); the queue and the
in-flight set are untouched, no serializer call and no physical submission
happen for any intent, and no transport run happens. -/
theorem C6_dead_target (serOk : Bool) (serVal : Nat) (excl isMain : Bool)
    (rounds : List (Nat × List (Nat × Bool))) (i : TransmitIntent) (s : ATB) :
    scheduleTransmit PrepOutcome.dead serOk serVal excl isMain rounds i s =
      (false, { s with log := s.log ++ [Event.txdone i.tid SendStatus.Sent], accepted := s.accepted ++ [i.tid] }) ∧
    (scheduleTransmit PrepOutcome.dead serOk serVal excl isMain rounds i s).2.queued = s.queued ∧
    (scheduleTransmit PrepOutcome.dead serOk serVal excl isMain rounds i s).2.inflight = s.inflight ∧
    (∀ t, ((scheduleTransmit PrepOutcome.dead serOk serVal excl isMain rounds i s).2.log.countP (subFor t)) = s.log.countP (subFor t)) ∧
    (∀ t, ((scheduleTransmit PrepOutcome.dead serOk serVal excl isMain rounds i s).2.log.countP (serFor t)) = s.log.countP (serFor t)) ∧
    ((scheduleTransmit PrepOutcome.dead serOk serVal excl isMain rounds i s).2.log.countP isRunEv) = s.log.countP isRunEv := by
  refine ⟨rfl, rfl, rfl, ?_, ?_, ?_⟩
  · intro t
    show List.countP (subFor t) (s.log ++ [Event.txdone i.tid SendStatus.Sent]) = _
    rw [List.countP_append]
    rfl
  · intro t
    show List.countP (serFor t) (s.log ++ [Event.txdone i.tid SendStatus.Sent]) = _
    rw [List.countP_append]
    rfl
  · show List.countP isRunEv (s.log ++ [Event.txdone i.tid SendStatus.Sent]) = _
    rw [List.countP_append]
    rfl

/-- C7: the expiry sweep partitions the queue by each intent's own deadline:
the survivors are exactly the non-expired intents in their original relative
order (a sublist of the queue), each removed intent gets exactly one Failed
completion, the returned count is the live queue length, the returned flag
is true iff at least one intent was removed, and a sweep of a queue with no
expired intents returns the length with a false flag and leaves the state
unchanged. -/
theorem C7_expiry_sweep (s : ATB) :
    (complete_expired_intents s).2.queued =
      s.queued.filter (fun i => !(i.expiredAt s.now)) ∧
    (complete_expired_intents s).2.queued.Sublist s.queued ∧
    (complete_expired_intents s).2.log =
      s.log ++ failEvents (s.queued.filter (fun i => i.expiredAt s.now)) ∧
    (complete_expired_intents s).1.1 = (complete_expired_intents s).2.queued.length ∧
    ((complete_expired_intents s).1.2 = true ↔
      s.queued.filter (fun i => i.expiredAt s.now) ≠ []) ∧
    ((∀ i ∈ s.queued, i.expiredAt s.now = false) →
      complete_expired_intents s = ((s.queued.length, false), s)) := by
  refine ⟨rfl, ?_, rfl, rfl, ?_, sweep_id s⟩
  · rw [sweep_queued]
    exact List.filter_sublist _
  · rw [sweep_flag]
    simp [List.isEmpty_iff]

theorem C7_expiry_sweep_witness :
    (∀ i ∈ readyState.queued, i.expiredAt readyState.now = false) ∧
    complete_expired_intents readyState = ((readyState.queued.length, false), readyState) :=
  ⟨by decide, (C7_expiry_sweep readyState).2.2.2.2.2 (by decide)⟩

/-- C10 counterexample: the claim asserts that `a > a` holds for every
ExpirationTimer because `__gt__` is the negation of `__lt__`; but for a
timer created with duration None (`_time_to_quit is None`), `__gt__` takes
the special both-None branch and returns False, so `a > a` fails there. -/
theorem C10_gt_counterexample :
    ExpirationTimer.gt (ExpirationTimer.make none 0) (ExpirationTimer.make none 0) =
      false := rfl

/-- C10 (amended): for timers with a non-None expiry on either side,
`__gt__` is exactly the negation of `__lt__`; hence `a > a` holds for every
timer with a concrete expiry, and two timers with the same concrete expiry
satisfy both `a == b` and `a > b` (so `>` is neither irreflexive nor
mutually exclusive with `==`, and is not a strict order); but when both
timers are None, `__gt__` returns False (`a > a` fails for the forever
timer, while `a == a` still holds). -/
theorem C10_gt_not_strict (a b : ExpirationTimer) (x : ℚ) (now : ℚ)
    (hne : a.time_to_quit ≠ none ∨ b.time_to_quit ≠ none)
    (hax : a.time_to_quit = some x) (hbx : b.time_to_quit = some x) :
    ExpirationTimer.gt a b = !(ExpirationTimer.lt a b) ∧
    ExpirationTimer.gt a a = true ∧
    ExpirationTimer.eq now a b = true ∧
    ExpirationTimer.gt a b = true ∧
    (∀ c : ExpirationTimer, c.time_to_quit = none →
      ExpirationTimer.gt c c = false ∧ ExpirationTimer.eq now c c = true) := by
  obtain ⟨ta⟩ := a
  obtain ⟨tb⟩ := b
  simp only at hax hbx
  subst hax
  subst hbx
  refine ⟨rfl, ?_, ?_, ?_, ?_⟩
  · simp [ExpirationTimer.gt, ExpirationTimer.lt]
  · simp [ExpirationTimer.eq]
  · simp [ExpirationTimer.gt, ExpirationTimer.lt]
  · intro c hc
    obtain ⟨tc⟩ := c
    simp only at hc
    subst hc
    exact ⟨rfl, by simp [ExpirationTimer.eq]⟩

theorem C10_gt_not_strict_witness :
    ((⟨some 5⟩ : ExpirationTimer).time_to_quit ≠ none ∨
     (⟨some 5⟩ : ExpirationTimer).time_to_quit ≠ none) ∧
    (⟨some 5⟩ : ExpirationTimer).time_to_quit = some 5 ∧
    (⟨some 5⟩ : ExpirationTimer).time_to_quit = some 5 ∧
    (ExpirationTimer.gt ⟨some 5⟩ ⟨some 5⟩ = !(ExpirationTimer.lt ⟨some 5⟩ ⟨some 5⟩) ∧
     ExpirationTimer.gt ⟨some 5⟩ ⟨some 5⟩ = true ∧
     ExpirationTimer.eq 0 ⟨some 5⟩ ⟨some 5⟩ = true ∧
     ExpirationTimer.gt ⟨some 5⟩ ⟨some 5⟩ = true ∧
     (∀ c : ExpirationTimer, c.time_to_quit = none →
       ExpirationTimer.gt c c = false ∧ ExpirationTimer.eq 0 c c = true)) :=
  ⟨Or.inl (by simp), rfl, rfl,
   C10_gt_not_strict ⟨some 5⟩ ⟨some 5⟩ 5 0 (Or.inl (by simp)) rfl rfl⟩

/-- C4 counterexample: the claim says a drive call (without the exclusive
flag) that finds the submission rights held elsewhere returns False and
leaves exclusiveHolder, sendingFlag and the queue unchanged; but on that
path the source's `finally` clause clears both flags: from a state with
`_aTB_processing` held and a live queued intent, `_runQueued` returns False
yet the resulting state has `_aTB_processing = False`. -/
theorem C4_counterexample :
    (runQueued false heldState).1 = false ∧
    heldState.processing = true ∧
    (runQueued false heldState).2.processing = false ∧
    (runQueued false heldState).2.sending = false := by decide

/-- C4 (amended): when `_runQueued` (without the exclusive flag) finds no
work to do on a queue with no expired intents, it returns False; in the
sendingFlag-true and empty-queue branches the state is fully unchanged, but
when another context holds the submission rights the call additionally
clears both `_aTB_processing` and `_aTB_sending` (the `finally` of the
source runs even though this caller never took the flags). -/
theorem C4_drive_nothing_done (s : ATB)
    (hnoexp : ∀ i ∈ s.queued, i.expiredAt s.now = false) :
    (s.processing = true →
      runQueued false s = (false, { s with processing := false, sending := false })) ∧
    (s.processing = false → s.sending = true → runQueued false s = (false, s)) ∧
    (s.processing = false → s.sending = false → s.queued = [] →
      runQueued false s = (false, s)) := by
  have hrq : runQueued false s = runQueuedBody false s := by
    unfold runQueued
    rw [sweepLoop_id s.queued.length s hnoexp]
  refine ⟨?_, ?_, ?_⟩
  · intro hp
    rw [hrq]
    unfold runQueuedBody
    simp [hp]
  · intro hp hs
    rw [hrq]
    unfold runQueuedBody
    simp [hp, hs]
  · intro hp hs hq
    rw [hrq]
    unfold runQueuedBody
    simp [hp, hs, hq]

theorem C4_drive_nothing_done_witness :
    (∀ i ∈ heldState.queued, i.expiredAt heldState.now = false) ∧
    heldState.processing = true ∧
    runQueued false heldState =
      (false, { heldState with processing := false, sending := false }) :=
  ⟨by decide, rfl, (C4_drive_nothing_done heldState (by decide)).1 rfl⟩

theorem runQueuedBody_flags (excl : Bool) (s0 : ATB) :
    (runQueuedBody excl s0).1 = false ∨
    ((runQueuedBody excl s0).2.processing = false ∧
     (runQueuedBody excl s0).2.sending = false) := by
  unfold runQueuedBody
  split
  · split
    · exact Or.inl rfl
    · split
      · exact Or.inl rfl
      · exact Or.inr ⟨rfl, rfl⟩
  · exact Or.inl rfl

/-- C5 counterexample: the claim says the submission rights are released
before the Transport is invoked; but driving a ready state pops and submits
its head with both `_aTB_processing` and `_aTB_sending` still held at the
moment of the `_scheduleTransmitActual` call (the two trailing Booleans of
the recorded submission event), so the rights are held, not released, during
the Transport invocation. -/
theorem C5_counterexample :
    (runQueued false readyState).1 = true ∧
    (runQueued false readyState).2.log = [Event.transportSubmit 0 0 true true] := by
  decide

/-- C5 (amended): in the drive step, after taking exclusive rights and
popping the FIFO head, both the submission rights and the sending flag are
held during the Transport invocation (every submission event on record
carries both flags true — none is flagged as unprotected) and both are
released when the submission call returns: whenever `_runQueued` reports
that it submitted, the resulting state has both flags cleared. -/
theorem C5_rights_held_through_submit (excl : Bool) (s : ATB) :
    (s.log.countP flaggedSub = 0 → (runQueued excl s).2.log.countP flaggedSub = 0) ∧
    ((runQueued excl s).1 = true →
      (runQueued excl s).2.processing = false ∧
      (runQueued excl s).2.sending = false) := by
  refine ⟨(runQueued_pres excl s).flg, ?_⟩
  intro h1
  rcases runQueuedBody_flags excl (sweepLoop (s.queued.length + 1) s).2 with hf | hf
  · exfalso
    unfold runQueued at h1
    rw [hf] at h1
    exact absurd h1 (by simp)
  · unfold runQueued
    exact hf

theorem C5_rights_held_through_submit_witness :
    readyState.log.countP flaggedSub = 0 ∧
    (runQueued false readyState).1 = true ∧
    ((runQueued false readyState).2.log.countP flaggedSub = 0 ∧
     ((runQueued false readyState).2.processing = false ∧
      (runQueued false readyState).2.sending = false)) :=
  ⟨rfl, by decide,
   (C5_rights_held_through_submit false readyState).1 rfl,
   (C5_rights_held_through_submit false readyState).2 (by decide)⟩

/-- C8: transmit-only drain mode is entered exactly when the post-sweep live
queue depth has reached MAX_QUEUED_TRANSMITS and rx-pause draining is
enabled; when not entered, the state is just the swept state.  The loop's
exit reasons are exactly: the depth drained to
QUEUE_TRANSMIT_UNBLOCK_THRESHOLD or below, the drain deadline expired, or
the Transport reported zero work processed (the last logged action is then
that zero-work run).  The loop always terminates within its deadline: with a
deadline the number of transport runs performed is at most the time left at
entry, for every (arbitrarily long) supply of transport rounds, and a
transport that perpetually reports no work is invoked at most once. -/
theorem C8_drain_mode (d : Option Nat) (rounds : List (Nat × List (Nat × Bool)))
    (s : ATB) (hwf : ∀ r ∈ rounds, r.1 = 0 → r.2 = []) :
    ((drain_tx_queue_if_needed d rounds s).1 = DrainExit.notEntered ↔
      ¬(MAX_QUEUED_TRANSMITS ≤ (complete_expired_intents s).1.1 ∧
        s.rx_pause_enabled = true)) ∧
    ((drain_tx_queue_if_needed d rounds s).1 = DrainExit.notEntered →
      (drain_tx_queue_if_needed d rounds s).2.2 = (complete_expired_intents s).2) ∧
    ((drain_tx_queue_if_needed d rounds s).1 = DrainExit.drained →
      (drain_tx_queue_if_needed d rounds s).2.1 ≤ QUEUE_TRANSMIT_UNBLOCK_THRESHOLD) ∧
    ((drain_tx_queue_if_needed d rounds s).1 = DrainExit.deadlineHit →
      dexpired (mkDrainDeadline d s.now)
        (drain_tx_queue_if_needed d rounds s).2.2.now = true) ∧
    ((drain_tx_queue_if_needed d rounds s).1 = DrainExit.noWork →
      (drain_tx_queue_if_needed d rounds s).2.2.log.getLast? =
        some (Event.transportRun 0)) ∧
    (∀ dln, mkDrainDeadline d s.now = some dln →
      (drain_tx_queue_if_needed d rounds s).2.2.log.countP isRunEv ≤
        s.log.countP isRunEv + (dln - s.now)) ∧
    ((∀ r ∈ rounds, r.1 = 0) →
      (drain_tx_queue_if_needed d rounds s).2.2.log.countP isRunEv ≤
        s.log.countP isRunEv + 1) := by
  unfold drain_tx_queue_if_needed
  split
  · rename_i hcond
    simp only [Bool.and_eq_true, decide_eq_true_eq] at hcond
    obtain ⟨hc1, hc2⟩ := hcond
    rw [sweep_rx] at hc2
    refine ⟨?_, ?_, drainLoop_drained _ _ _ _, ?_, drainLoop_noWork _ _ _ _ hwf, ?_, ?_⟩
    · exact iff_of_false (drainLoop_ne_notEntered _ _ _ _) (not_not_intro ⟨hc1, hc2⟩)
    · intro hne
      exact absurd hne (drainLoop_ne_notEntered _ _ _ _)
    · intro hdl
      have hd := drainLoop_deadline
        (mkDrainDeadline d (complete_expired_intents s).2.now) rounds
        (complete_expired_intents s).1.1 (complete_expired_intents s).2 hdl
      rwa [sweep_now] at hd
    · intro dln hdl
      have hdl2 : mkDrainDeadline d (complete_expired_intents s).2.now = some dln := by
        rw [sweep_now]
        exact hdl
      rw [hdl2]
      have hb := drainLoop_runcount dln rounds (complete_expired_intents s).1.1
        (complete_expired_intents s).2
      rw [sweep_countP isRunEv (fun _ _ => rfl) s, sweep_now] at hb
      exact hb
    · intro hz
      have hb := drainLoop_allzero
        (mkDrainDeadline d (complete_expired_intents s).2.now) rounds
        (complete_expired_intents s).1.1 (complete_expired_intents s).2 hz
      rw [sweep_countP isRunEv (fun _ _ => rfl) s] at hb
      exact hb
  · rename_i hcond
    have hsw := sweep_countP isRunEv (fun _ _ => rfl) s
    refine ⟨?_, fun _ => rfl, ?_, ?_, ?_, ?_, ?_⟩
    · refine iff_of_true rfl ?_
      intro hab
      apply hcond
      rw [Bool.and_eq_true]
      refine ⟨decide_eq_true hab.1, ?_⟩
      rw [sweep_rx]
      exact hab.2
    · intro h
      exact DrainExit.noConfusion
        (show DrainExit.notEntered = DrainExit.drained from h)
    · intro h
      exact DrainExit.noConfusion
        (show DrainExit.notEntered = DrainExit.deadlineHit from h)
    · intro h
      exact DrainExit.noConfusion
        (show DrainExit.notEntered = DrainExit.noWork from h)
    · intro dln _
      show (complete_expired_intents s).2.log.countP isRunEv ≤ _
      rw [hsw]
      omega
    · intro _
      show (complete_expired_intents s).2.log.countP isRunEv ≤ _
      rw [hsw]
      omega

theorem C8_drain_mode_witness :
    (∀ r ∈ [((1 : Nat), ([] : List (Nat × Bool)))], r.1 = 0 → r.2 = []) ∧
    ((drain_tx_queue_if_needed (some 3) [(1, [])] drainState).1 =
        DrainExit.notEntered ↔
      ¬(MAX_QUEUED_TRANSMITS ≤ (complete_expired_intents drainState).1.1 ∧
        drainState.rx_pause_enabled = true)) ∧
    ((drain_tx_queue_if_needed (some 3) [(1, [])] drainState).1 =
        DrainExit.notEntered →
      (drain_tx_queue_if_needed (some 3) [(1, [])] drainState).2.2 =
        (complete_expired_intents drainState).2) ∧
    ((drain_tx_queue_if_needed (some 3) [(1, [])] drainState).1 =
        DrainExit.drained →
      (drain_tx_queue_if_needed (some 3) [(1, [])] drainState).2.1 ≤
        QUEUE_TRANSMIT_UNBLOCK_THRESHOLD) ∧
    ((drain_tx_queue_if_needed (some 3) [(1, [])] drainState).1 =
        DrainExit.deadlineHit →
      dexpired (mkDrainDeadline (some 3) drainState.now)
        (drain_tx_queue_if_needed (some 3) [(1, [])] drainState).2.2.now = true) ∧
    ((drain_tx_queue_if_needed (some 3) [(1, [])] drainState).1 =
        DrainExit.noWork →
      (drain_tx_queue_if_needed (some 3) [(1, [])] drainState).2.2.log.getLast? =
        some (Event.transportRun 0)) ∧
    (∀ dln, mkDrainDeadline (some 3) drainState.now = some dln →
      (drain_tx_queue_if_needed (some 3) [(1, [])] drainState).2.2.log.countP isRunEv ≤
        drainState.log.countP isRunEv + (dln - drainState.now)) ∧
    ((∀ r ∈ [((1 : Nat), ([] : List (Nat × Bool)))], r.1 = 0) →
      (drain_tx_queue_if_needed (some 3) [(1, [])] drainState).2.2.log.countP isRunEv ≤
        drainState.log.countP isRunEv + 1) :=
  ⟨by decide, C8_drain_mode (some 3) [(1, [])] drainState (by decide)⟩

/-- The drain-then-drive tail of `_schedulePreparedIntent` either leaves the
interrupt bookkeeping alone, or fires exactly one `interrupt_wait()` — and
then only from a non-main thread with no interruption outstanding, setting
the flag. -/
theorem driveAfter_int (excl isMain : Bool) (rounds : List (Nat × List (Nat × Bool)))
    (dv : Option Nat) (s : ATB) :
    ((driveAfter excl isMain rounds dv s).log.countP isIntEv =
        s.log.countP isIntEv ∧
     (driveAfter excl isMain rounds dv s).interrupted = s.interrupted) ∨
    ((driveAfter excl isMain rounds dv s).log.countP isIntEv =
        s.log.countP isIntEv + 1 ∧
     isMain = false ∧ s.interrupted = false ∧
     (driveAfter excl isMain rounds dv s).interrupted = true) := by
  unfold driveAfter
  obtain ⟨h1, h2⟩ := ipres_drainBlock excl rounds dv s
  rcases driveLoop_int excl isMain ((drainBlock excl rounds dv s).queued.length + 1)
      (drainBlock excl rounds dv s) with ⟨a, b⟩ | ⟨a, b, c, d2⟩
  · exact Or.inl ⟨a.trans h2, b.trans h1⟩
  · refine Or.inr ⟨by rw [a, h2], b, ?_, d2⟩
    rw [← h1]
    exact c

/-- C9: during one `_schedulePreparedIntent` call with a nonempty payload,
`interrupt_wait()` fires at most once; never on the main thread; when it
fires, the interrupt flag is left set; with the flag already set (and no
wake message involved) it never fires again — at most one signal per
outstanding interruption.  A wake (UpdateWork) message completes exactly
once as Sent, is never physically submitted to the Transport, and clears the
interrupt flag (the flag ends false unless this very call raised a fresh
interrupt). -/
theorem C9_wake_and_interrupt (excl isMain : Bool)
    (rounds : List (Nat × List (Nat × Bool))) (i : TransmitIntent) (s : ATB)
    (hser : i.serMsg ≠ 0) :
    ((schedulePreparedIntent excl isMain rounds i s).log.countP isIntEv ≤
       s.log.countP isIntEv + 1) ∧
    (isMain = true →
      (schedulePreparedIntent excl isMain rounds i s).log.countP isIntEv =
        s.log.countP isIntEv) ∧
    ((schedulePreparedIntent excl isMain rounds i s).log.countP isIntEv =
        s.log.countP isIntEv + 1 →
      isMain = false ∧
      (schedulePreparedIntent excl isMain rounds i s).interrupted = true) ∧
    (i.isUpdateWork = false → s.interrupted = true →
      (schedulePreparedIntent excl isMain rounds i s).log.countP isIntEv =
        s.log.countP isIntEv ∧
      (schedulePreparedIntent excl isMain rounds i s).interrupted = true) ∧
    (i.isUpdateWork = true → ledger s i.tid = 0 →
      s.log.countP (subFor i.tid) = 0 →
      (schedulePreparedIntent excl isMain rounds i s).log.countP (txFor i.tid) = 1 ∧
      (schedulePreparedIntent excl isMain rounds i s).log.countP (subFor i.tid) = 0 ∧
      ((schedulePreparedIntent excl isMain rounds i s).log.countP isIntEv =
          s.log.countP isIntEv →
        (schedulePreparedIntent excl isMain rounds i s).interrupted = false)) := by
  unfold schedulePreparedIntent
  rw [if_neg hser]
  split
  · rename_i hu
    have hint := driveAfter_int excl isMain rounds i.delayv
      { s with log := s.log ++ [Event.txdone i.tid SendStatus.Sent], interrupted := false }
    have hs1c : List.countP isIntEv (s.log ++ [Event.txdone i.tid SendStatus.Sent]) =
        s.log.countP isIntEv := by
      rw [List.countP_append]
      rfl
    have hrecU : List.countP isIntEv ({ s with log := s.log ++ [Event.txdone i.tid SendStatus.Sent], interrupted := false } : ATB).log = List.countP isIntEv s.log := hs1c
    refine ⟨?_, ?_, ?_, ?_, ?_⟩
    · rcases hint with ⟨a, _⟩ | ⟨a, _, _, _⟩ <;> (rw [a, hrecU]; try omega)
    · intro hm
      rcases hint with ⟨a, _⟩ | ⟨a, b, _, _⟩
      · rw [a, hrecU]
      · rw [hm] at b
        exact absurd b (by decide)
    · intro hcnt
      rcases hint with ⟨a, _⟩ | ⟨a, b, _, d2⟩
      · rw [a, hrecU] at hcnt
        omega
      · exact ⟨b, d2⟩
    · intro h4
      rw [hu] at h4
      exact absurd h4 (by decide)
    · intro _ hfresh hsub
      have hfr : List.countP (txFor i.tid) s.log = 0 ∧
          List.countP (tidIs i.tid) s.queued = 0 ∧
          List.count i.tid s.inflight = 0 := by
        unfold ledger at hfresh
        omega
      have hp := driveAfter_pres excl isMain rounds i.delayv
        { s with log := s.log ++ [Event.txdone i.tid SendStatus.Sent], interrupted := false }
      obtain ⟨dd, hdd⟩ := hp.pref
      have hled := hp.led i.tid
      have hsub1 : List.countP (subFor i.tid)
          (s.log ++ [Event.txdone i.tid SendStatus.Sent]) = 0 := by
        rw [List.countP_append, hsub]
        rfl
      obtain ⟨hns, hnq⟩ := hp.nosub i.tid hsub1 hfr.2.1
      have htx1 : List.countP (txFor i.tid)
          (s.log ++ [Event.txdone i.tid SendStatus.Sent]) = 1 := by
        rw [countP_txFor_push s i.tid SendStatus.Sent i.tid, if_pos rfl, hfr.1]
      refine ⟨?_, hns, ?_⟩
      · have htx1r : List.countP (txFor i.tid) ({ s with log := s.log ++ [Event.txdone i.tid SendStatus.Sent], interrupted := false } : ATB).log = 1 := htx1
        have hq1 : List.countP (tidIs i.tid) ({ s with log := s.log ++ [Event.txdone i.tid SendStatus.Sent], interrupted := false } : ATB).queued = 0 := hfr.2.1
        have hin1 : List.count i.tid ({ s with log := s.log ++ [Event.txdone i.tid SendStatus.Sent], interrupted := false } : ATB).inflight = 0 := hfr.2.2
        unfold ledger at hled
        rw [hdd, List.countP_append, htx1r, hq1, hin1] at hled
        rw [hdd, List.countP_append, htx1r]
        omega
      · intro hcnt
        rcases hint with ⟨_, b⟩ | ⟨a, _, _, _⟩
        · exact b
        · rw [a, hrecU] at hcnt
          omega
  · rename_i hnu
    split
    · rename_i hqt
      have hlen : s.queued.length < DROP_TRANSMITS_LEVEL := by
        by_contra hno
        rw [queue_tx_false i s hno] at hqt
        simp at hqt
      rw [show (queue_tx i s).2 = { s with queued := s.queued ++ [i] } from by
        rw [queue_tx_true i s hlen]]
      have hint := driveAfter_int excl isMain rounds i.delayv
        { s with queued := s.queued ++ [i] }
      have hrecQ : List.countP isIntEv ({ s with queued := s.queued ++ [i] } : ATB).log = List.countP isIntEv s.log := rfl
      refine ⟨?_, ?_, ?_, ?_, ?_⟩
      · rcases hint with ⟨a, _⟩ | ⟨a, _, _, _⟩ <;> (rw [a, hrecQ]; try omega)
      · intro hm
        rcases hint with ⟨a, _⟩ | ⟨a, b, _, _⟩
        · rw [a, hrecQ]
        · rw [hm] at b
          exact absurd b (by decide)
      · intro hcnt
        rcases hint with ⟨a, _⟩ | ⟨a, b, _, d2⟩
        · rw [a, hrecQ] at hcnt
          omega
        · exact ⟨b, d2⟩
      · intro _ hintr
        rcases hint with ⟨a, b⟩ | ⟨_, _, c, _⟩
        · exact ⟨a.trans hrecQ, b.trans hintr⟩
        · have c2 : s.interrupted = false := c
          rw [hintr] at c2
          exact absurd c2 (by decide)
      · intro h5
        exact absurd h5 hnu
    · rename_i hqt
      have hlen : ¬ s.queued.length < DROP_TRANSMITS_LEVEL := by
        by_contra hyes
        rw [queue_tx_true i s hyes] at hqt
        simp at hqt
      rw [show (queue_tx i s).2 =
        { s with log := s.log ++ [Event.txdone i.tid SendStatus.Failed] } from by
          rw [queue_tx_false i s hlen]]
      have hs1c : List.countP isIntEv
          (s.log ++ [Event.txdone i.tid SendStatus.Failed]) =
          s.log.countP isIntEv := by
        rw [List.countP_append]
        rfl
      refine ⟨?_, ?_, ?_, ?_, ?_⟩
      · show List.countP isIntEv (s.log ++ [Event.txdone i.tid SendStatus.Failed]) ≤ _
        rw [hs1c]
        omega
      · intro _
        exact hs1c
      · intro hcnt
        rw [hs1c] at hcnt
        omega
      · intro _ hintr
        exact ⟨hs1c, hintr⟩
      · intro h5
        exact absurd h5 hnu

theorem C9_wake_and_interrupt_witness :
    wakeIntent.serMsg ≠ 0 ∧
    (((schedulePreparedIntent false false [] wakeIntent init).log.countP isIntEv ≤
        init.log.countP isIntEv + 1) ∧
     (false = true →
       (schedulePreparedIntent false false [] wakeIntent init).log.countP isIntEv =
         init.log.countP isIntEv) ∧
     ((schedulePreparedIntent false false [] wakeIntent init).log.countP isIntEv =
         init.log.countP isIntEv + 1 →
       false = false ∧
       (schedulePreparedIntent false false [] wakeIntent init).interrupted = true) ∧
     (wakeIntent.isUpdateWork = false → init.interrupted = true →
       (schedulePreparedIntent false false [] wakeIntent init).log.countP isIntEv =
         init.log.countP isIntEv ∧
       (schedulePreparedIntent false false [] wakeIntent init).interrupted = true) ∧
     (wakeIntent.isUpdateWork = true → ledger init wakeIntent.tid = 0 →
       init.log.countP (subFor wakeIntent.tid) = 0 →
       (schedulePreparedIntent false false [] wakeIntent init).log.countP
         (txFor wakeIntent.tid) = 1 ∧
       (schedulePreparedIntent false false [] wakeIntent init).log.countP
         (subFor wakeIntent.tid) = 0 ∧
       ((schedulePreparedIntent false false [] wakeIntent init).log.countP isIntEv =
           init.log.countP isIntEv →
         (schedulePreparedIntent false false [] wakeIntent init).interrupted = false))) :=
  ⟨by decide, C9_wake_and_interrupt false false [] wakeIntent init (by decide)⟩

end Thespian

